import Mathlib

/-!
Shallow embedding of the Vox core (vyxen_core) decision loop, scrutinising the
behavioural claims of its specification.  All Python floats are modelled as
rationals, Python `deque`s as Lean lists (front = oldest), and every wall-clock
read (`time.time()`) becomes an explicit rational parameter.
-/

namespace Vox

/-! ### List helpers -/

/-- An element that fails the predicate is never removed by `dropWhile`. -/
theorem mem_dropWhile_of_pred_false {α : Type} (p : α → Bool) :
    ∀ (l : List α) (a : α), a ∈ l → p a = false → a ∈ l.dropWhile p := by
  intro l
  induction l with
  | nil => intro a ha _; exact absurd ha (List.not_mem_nil a)
  | cons b bs ih =>
    intro a ha hpa
    by_cases hb : p b = true
    · have hd : (b :: bs).dropWhile p = bs.dropWhile p := by
        simp [List.dropWhile_cons, hb]
      rw [hd]
      rcases List.mem_cons.mp ha with rfl | h
      · rw [hpa] at hb; cases hb
      · exact ih a h hpa
    · have hb' : p b = false := by revert hb; cases (p b) <;> simp
      have hd : (b :: bs).dropWhile p = b :: bs := by
        simp [List.dropWhile_cons, hb']
      rw [hd]; exact ha

/-- Every element kept by `takeWhile` satisfies the predicate. -/
theorem pred_true_of_mem_takeWhile {α : Type} (p : α → Bool) :
    ∀ (l : List α) (a : α), a ∈ l.takeWhile p → p a = true := by
  intro l
  induction l with
  | nil => intro a ha; simp [List.takeWhile] at ha
  | cons b bs ih =>
    intro a ha
    by_cases hb : p b = true
    · have ht : (b :: bs).takeWhile p = b :: bs.takeWhile p := by
        simp [List.takeWhile_cons, hb]
      rw [ht] at ha
      rcases List.mem_cons.mp ha with rfl | h
      · exact hb
      · exact ih a h
    · have hb' : p b = false := by revert hb; cases (p b) <;> simp
      have ht : (b :: bs).takeWhile p = [] := by
        simp [List.takeWhile_cons, hb']
      rw [ht] at ha
      exact absurd ha (List.not_mem_nil a)

/-! ### CircuitBreaker (src/vyxen_core/safety.py)

Faithful embedding of the `CircuitBreaker` class.  The Python code reads the
wall clock several times; each method takes `now` for the read it performs
itself.  `_prune` additionally evaluates the `tripped` property, which performs
a *fresh* `time.time()` read; that second read is modelled by the extra
parameter `t2` (in any real execution `now ≤ t2`). -/

structure CircuitBreaker where
  threshold : Nat
  window_seconds : ℚ
  cooldown_seconds : ℚ
  failures : List ℚ
  tripped_until : ℚ
  reason : String
deriving Repr, DecidableEq

namespace CircuitBreaker

/-- `tripped` property: `time.time() < self.tripped_until`, at clock value `t`. -/
def tripped (b : CircuitBreaker) (t : ℚ) : Bool :=
  decide (t < b.tripped_until)

/-- `_prune(now)`.  Drops expired failure timestamps from the front of the
deque, then runs the clearing branch `if self.tripped and now >= self.tripped_until`
where the `tripped` property re-reads the clock (value `t2`). -/
def prune (b : CircuitBreaker) (now t2 : ℚ) : CircuitBreaker :=
  let b' := { b with failures := b.failures.dropWhile (fun f => decide (b.window_seconds < now - f)) }
  if b'.tripped t2 && decide (b'.tripped_until ≤ now) then
    { b' with failures := [], reason := "" }
  else b'

/-- `allow()`: prunes, then returns `False` when `now < tripped_until`.
Returns the answer together with the mutated breaker. -/
def allow (b : CircuitBreaker) (now t2 : ℚ) : Bool × CircuitBreaker :=
  let b' := b.prune now t2
  (decide (b'.tripped_until ≤ now), b')

/-- `record_failure(reason)`: append `now`, store the reason, prune, then trip
once the window count reaches the threshold. -/
def record_failure (b : CircuitBreaker) (r : String) (now t2 : ℚ) : CircuitBreaker :=
  let b' := { b with failures := b.failures ++ [now], reason := r }
  let b'' := b'.prune now t2
  if b''.threshold ≤ b''.failures.length then
    { b'' with tripped_until := now + b''.cooldown_seconds }
  else b''

/-- `record_success()`: prune, then clear the reason only when no failures
remain in the window. -/
def record_success (b : CircuitBreaker) (now t2 : ℚ) : CircuitBreaker :=
  let b' := b.prune now t2
  if b'.failures.isEmpty then { b' with reason := "" } else b'

/-- Constructor defaults relevant to the claims: fresh breaker with empty
failure window. -/
def mk0 (threshold : Nat) (window cooldown : ℚ) : CircuitBreaker :=
  { threshold := threshold, window_seconds := window, cooldown_seconds := cooldown,
    failures := [], tripped_until := 0, reason := "" }

/-- With a monotone clock (`now ≤ t2`) the clearing branch of `_prune` can
never fire: it requires `t2 < tripped_until ≤ now ≤ t2`. -/
theorem prune_eq_dropWhile (b : CircuitBreaker) (now t2 : ℚ) (h : now ≤ t2) :
    b.prune now t2 =
      { b with failures := b.failures.dropWhile (fun f => decide (b.window_seconds < now - f)) } := by
  unfold prune
  rw [if_neg]
  intro hcond
  rw [Bool.and_eq_true] at hcond
  obtain ⟨h1, h2⟩ := hcond
  simp only [tripped, decide_eq_true_eq] at h1
  rw [decide_eq_true_eq] at h2
  exact absurd (lt_of_le_of_lt (le_trans h2 h) h1) (lt_irrefl _)

end CircuitBreaker

/-! ### CausalMemory (src/vyxen_core/memory.py)

The SQLite-backed store is embedded as explicit state: the `memory` table is a
list of rows, the gzip warm archive a list of summary entries, and the backing
file's failure modes are two flags (`dbFail`: any connection/query raises;
`sizeMb = none`: the db file does not exist, i.e. `stat` raises
FileNotFoundError).  Only the `memory` table and the profile/relationship
tables are modelled; the remaining tables do not appear in any claim. -/

/-- One row of the `memory` table.  `context`/`interpretations`/`action`/
`outcome` are stored JSON blobs, kept opaque as strings. -/
structure MemRow where
  rid : Nat
  server_id : String
  stimulus_type : String
  context : String
  interpretations : String
  decision : String
  action : String
  outcome : String
  cdelta : ℚ
  ts : ℚ
deriving Repr, DecidableEq

/-- One line of the warm archive: either a per-row summary written by
`_summarize_rows` (type, decision, outcome, ts — never raw content) or the
trailing aggregate record with per-type counts and the ts range. -/
inductive WarmEntry where
  | row (server_id stimulus_type decision outcome : String) (ts : ℚ)
  | aggregate (counts : List (String × Nat)) (tsLo tsHi : ℚ)
deriving Repr, DecidableEq

/-- Stimulus fields used by the memory layer. -/
structure StimRec where
  type : String
  source : String
  context : String
  salience : ℚ
  routing : String
  timestamp : ℚ
deriving Repr, DecidableEq

/-- Configuration slice of `RuntimeConfig` used by `CausalMemory`.
`memory_table_limit` is `self._table_limits.get("memory")`. -/
structure MemConfig where
  hot_memory_row_cap : Nat
  hot_rotation_chunk : Nat
  memory_retention_limit : Nat
  memory_retention_window_seconds : ℚ
  memory_max_file_mb : ℚ
  memory_max_writes_per_second : Nat
  memory_table_limit : Option Nat
deriving Repr, DecidableEq

/-- The mutable state of a `CausalMemory` instance plus its storage backend. -/
structure MemState where
  rows : List MemRow
  next_id : Nat
  warm : List WarmEntry
  allow_writes : Bool
  disabled_due_to_size : Bool
  disabled_reason : String
  write_timestamps : List ℚ
  breaker : CircuitBreaker
  dbFail : Bool
  sizeMb : Option ℚ
  profiles : List ((String × String) × List (String × ℚ))
  relationships : List ((String × String × String) × List (String × ℚ))
deriving DecidableEq

/-- First-match association-list lookup (dict access). -/
def lookupKV {κ α : Type} [DecidableEq κ] : List (κ × α) → κ → Option α
  | [], _ => none
  | (k, v) :: rest, k' => if k = k' then some v else lookupKV rest k'

/-- Insertion step for an ascending sort by `ts` (`ORDER BY ts ASC`). -/
def insertTsAsc (r : MemRow) : List MemRow → List MemRow
  | [] => [r]
  | x :: xs => if r.ts ≤ x.ts then r :: x :: xs else x :: insertTsAsc r xs

/-- `ORDER BY ts ASC`. -/
def sortTsAsc (l : List MemRow) : List MemRow := l.foldr insertTsAsc []

/-- Insertion step for a descending sort by `ts` (`ORDER BY ts DESC`). -/
def insertTsDesc (r : MemRow) : List MemRow → List MemRow
  | [] => [r]
  | x :: xs => if x.ts ≤ r.ts then r :: x :: xs else x :: insertTsDesc r xs

/-- `ORDER BY ts DESC`. -/
def sortTsDesc (l : List MemRow) : List MemRow := l.foldr insertTsDesc []

/-- `CausalMemory._check_size_limit`. On `FileNotFoundError` (`sizeMb = none`)
nothing changes.  Oversize disables the store *and* clears `allow_writes`;
recovery clears only the disabled flag and reason — `allow_writes` is not
restored (the source comment claims it stays "whatever was requested at
init", which the code does not implement). -/
def checkSizeLimit (cfg : MemConfig) (st : MemState) : MemState :=
  match st.sizeMb with
  | none => st
  | some s =>
    if cfg.memory_max_file_mb < s then
      { st with disabled_due_to_size := true, allow_writes := false,
                disabled_reason := "memory db exceeds limit; memory access disabled" }
    else
      { st with disabled_due_to_size := false, disabled_reason := "" }

/-- `CausalMemory._prune_writes(now)`: drop commit timestamps older than the
rolling 1-second window from the front of the deque.  (The Python
`now = now or time.time()` re-read only triggers at clock value exactly 0.0;
theorems therefore assume positive clock values.) -/
def pruneWrites (now : ℚ) (l : List ℚ) : List ℚ :=
  l.dropWhile (fun ts => decide (1 < now - ts))

/-- `CausalMemory._table_over_limit` for the `memory` table: `None` or `0`
limits disable the check (`if not limit: return False`). -/
def tableOverLimit (limit : Option Nat) (count : Nat) : Bool :=
  match limit with
  | none => false
  | some l => if l = 0 then false else decide (l ≤ count)

/-- `CausalMemory._execute_write(table, writer)` for the `memory` table.
`tCheck` is the `now = time.time()` read before the rate check; `tCommit` the
`time.time()` appended after a successful commit (also used for the breaker
bookkeeping that happens at that point).  Returns the new state and whether
the write committed. -/
def executeWrite (cfg : MemConfig) (writer : List MemRow × Nat → List MemRow × Nat)
    (tCheck tCommit : ℚ) (st : MemState) : MemState × Bool :=
  if ¬ st.allow_writes then (st, false)
  else
    let p := st.breaker.allow tCheck tCheck
    let st1 := { st with breaker := p.2 }
    if ¬ p.1 then (st1, false)
    else
      let st2 := { st1 with write_timestamps := pruneWrites tCheck st1.write_timestamps }
      if cfg.memory_max_writes_per_second ≤ st2.write_timestamps.length then (st2, false)
      else if st2.dbFail then
        ({ st2 with breaker := st2.breaker.record_failure "database error" tCommit tCommit }, false)
      else if tableOverLimit cfg.memory_table_limit st2.rows.length then (st2, false)
      else
        let wr := writer (st2.rows, st2.next_id)
        ({ st2 with rows := wr.1, next_id := wr.2,
                    write_timestamps := st2.write_timestamps ++ [tCommit],
                    breaker := st2.breaker.record_success tCommit tCommit }, true)

/-- `CausalMemory._enforce_table_limits`, restricted to the `memory` table:
deletes the `total - cap` oldest rows outright (no archiving) whenever the
row count exceeds `hot_memory_row_cap`. -/
def enforceTableLimits (cfg : MemConfig) (st : MemState) : MemState :=
  if st.disabled_due_to_size then st
  else if st.dbFail then st
  else
    let total := st.rows.length
    if cfg.hot_memory_row_cap < total then
      let victimIds := ((sortTsAsc st.rows).take (total - cfg.hot_memory_row_cap)).map MemRow.rid
      { st with rows := st.rows.filter (fun r => ¬ victimIds.contains r.rid) }
    else st

/-- Per-type tally used by `_summarize_rows` (`Counter`). -/
def bumpCount (k : String) : List (String × Nat) → List (String × Nat)
  | [] => [(k, 1)]
  | (k', n) :: rest => if k' = k then (k', n + 1) :: rest else (k', n) :: bumpCount k rest

def countsOf (rows : List MemRow) : List (String × Nat) :=
  rows.foldl (fun acc r => bumpCount r.stimulus_type acc) []

def tsFoldMin (l : List ℚ) : ℚ :=
  match l with
  | [] => 0
  | x :: xs => xs.foldl min x

def tsFoldMax (l : List ℚ) : ℚ :=
  match l with
  | [] => 0
  | x :: xs => xs.foldl max x

/-- `CausalMemory._summarize_rows`: one summary per row plus a trailing
aggregate (when nonempty). -/
def summarizeRows (rows : List MemRow) : List WarmEntry :=
  let per := rows.map (fun r => WarmEntry.row r.server_id r.stimulus_type r.decision r.outcome r.ts)
  if rows.isEmpty then per
  else per ++ [WarmEntry.aggregate (countsOf rows)
    (tsFoldMin (rows.map MemRow.ts)) (tsFoldMax (rows.map MemRow.ts))]

/-- `CausalMemory._rotate_old_records`: move `min(chunk, total - cap)` oldest
rows into the warm archive as summaries; returns the rotation count. -/
def rotateOldRecords (cfg : MemConfig) (st : MemState) : MemState × Nat :=
  if ¬ st.allow_writes then (st, 0)
  else if st.dbFail then (st, 0)
  else
    let total := st.rows.length
    if total ≤ cfg.hot_memory_row_cap then (st, 0)
    else
      let victims := (sortTsAsc st.rows).take (min cfg.hot_rotation_chunk (total - cfg.hot_memory_row_cap))
      let victimIds := victims.map MemRow.rid
      ({ st with warm := st.warm ++ summarizeRows victims,
                 rows := st.rows.filter (fun r => ¬ victimIds.contains r.rid) },
       victims.length)

structure MaintReport where
  rotated : Nat
  disabled : Bool
deriving Repr, DecidableEq

/-- `CausalMemory.maintain()`: size check, then table-limit enforcement, then
rotation (the report's `disabled` field is filled from the pre-check flag, as
in the source). -/
def maintain (cfg : MemConfig) (st0 : MemState) : MemState × MaintReport :=
  let preDisabled := st0.disabled_due_to_size
  let st := checkSizeLimit cfg st0
  if st.disabled_due_to_size then (st, { rotated := 0, disabled := preDisabled })
  else
    let st2 := enforceTableLimits cfg st
    let p := rotateOldRecords cfg st2
    (p.1, { rotated := p.2, disabled := preDisabled })

/-- `CausalMemory.record(...)`: insert the causal row, trim to the retention
limit (most recent by ts), apply the time-based retention window, all through
`_execute_write`.  `tWrite` is the `time.time()` read inside the writer for
the retention cutoff. -/
def record (cfg : MemConfig) (server_id : String) (stimulus : StimRec)
    (interps decision action outcome : String) (cdelta : ℚ)
    (tCheck tWrite tCommit : ℚ) (st : MemState) : MemState × Bool :=
  executeWrite cfg (fun p =>
    let row : MemRow :=
      { rid := p.2, server_id := server_id, stimulus_type := stimulus.type,
        context := stimulus.context, interpretations := interps,
        decision := decision, action := action, outcome := outcome,
        cdelta := cdelta, ts := stimulus.timestamp }
    let rows1 := p.1 ++ [row]
    let keepIds := ((sortTsDesc rows1).take cfg.memory_retention_limit).map MemRow.rid
    let rows2 := rows1.filter (fun r => keepIds.contains r.rid)
    let cutoff := tWrite - cfg.memory_retention_window_seconds
    (rows2.filter (fun r => ¬ decide (r.ts < cutoff)), p.2 + 1))
    tCheck tCommit st

/-- `CausalMemory.fetch_recent`: returns `[]` when size-disabled, otherwise
queries without any exception handling — a backend failure propagates. -/
def fetchRecent (st : MemState) (server : String) (limit : Nat) :
    Except String (List MemRow) :=
  if st.disabled_due_to_size then .ok []
  else if st.dbFail then .error "database error"
  else .ok ((sortTsDesc (st.rows.filter (fun r => decide (r.server_id = server)))).take limit)

/-- `CausalMemory.echoes`: recent same-type records re-emitted as system
stimuli with age-decayed salience; like `fetch_recent` it has no exception
handling, so backend failures propagate. -/
def echoes (st : MemState) (server : String) (stim : StimRec) (now : ℚ)
    (limit : Nat) : Except String (List StimRec) :=
  if st.disabled_due_to_size then .ok []
  else if st.dbFail then .error "database error"
  else
    let rows := (sortTsDesc (st.rows.filter (fun r =>
      decide (r.server_id = server) && decide (r.stimulus_type = stim.type)))).take limit
    .ok (rows.map (fun r =>
      let age_hours := max (1/10) ((now - r.ts) / 3600)
      let decay := 1 / (1 + age_hours / 24)
      { type := r.stimulus_type, source := "memory", context := r.context,
        salience := min 1 (stim.salience * (7/10) * decay),
        routing := "system", timestamp := r.ts }))

def PROFILE_DEFAULTS : List (String × ℚ) :=
  [("verbosity", 1/2), ("humor_tolerance", 1/2), ("tone_balance", 1/2),
   ("success_rate", 1/2), ("warmth", 1/2), ("formality", 1/2),
   ("brevity_bias", 1/2), ("precision", 1/2)]

def RELATIONSHIP_DEFAULTS : List (String × ℚ) :=
  [("affinity", 1/2), ("trust", 1/2), ("topic_overlap", 1/2)]

/-- `CausalMemory.get_user_profile`: defaults when size-disabled, on any
backend failure (its query is wrapped in try/except) or when no row exists. -/
def getUserProfile (st : MemState) (server user : String) : List (String × ℚ) :=
  if st.disabled_due_to_size then PROFILE_DEFAULTS
  else
    let server' := if server = "" then "global" else server
    if st.dbFail then PROFILE_DEFAULTS
    else
      match lookupKV st.profiles (server', user) with
      | none => PROFILE_DEFAULTS
      | some d => d

/-- `CausalMemory.get_relationship`: key is the sorted user pair; defaults
when size-disabled, on any backend failure or when no row exists. -/
def getRelationship (st : MemState) (server ua ub : String) : List (String × ℚ) :=
  if st.disabled_due_to_size then RELATIONSHIP_DEFAULTS
  else
    let server' := if server = "" then "global" else server
    let key := if ua ≤ ub then (ua, ub) else (ub, ua)
    if st.dbFail then RELATIONSHIP_DEFAULTS
    else
      match lookupKV st.relationships (server', key.1, key.2) with
      | none => RELATIONSHIP_DEFAULTS
      | some d => d

/-! ### Concrete store states used by the memory claims -/

/-- A causal row with the given id and timestamp on server "global". -/
def mkRow (i : Nat) (t : ℚ) : MemRow :=
  { rid := i, server_id := "global", stimulus_type := "discord_message",
    context := "{}", interpretations := "{}", decision := "observe",
    action := "{}", outcome := "{}", cdelta := 1/10, ts := t }

/-- Memory breaker as constructed in `CausalMemory.__init__`. -/
def memBreaker : CircuitBreaker := CircuitBreaker.mk0 5 60 180

/-- A healthy store holding six rows with hot cap viewpoints of claim C1. -/
def stSixRows : MemState :=
  { rows := [mkRow 1 101, mkRow 2 102, mkRow 3 103, mkRow 4 104, mkRow 5 105, mkRow 6 106],
    next_id := 7, warm := [], allow_writes := true, disabled_due_to_size := false,
    disabled_reason := "", write_timestamps := [], breaker := memBreaker,
    dbFail := false, sizeMb := some 1, profiles := [], relationships := [] }

/-- Hot cap 3, rotation chunk 5 (> excess), generous other limits. -/
def cfgHot3 : MemConfig :=
  { hot_memory_row_cap := 3, hot_rotation_chunk := 5, memory_retention_limit := 100,
    memory_retention_window_seconds := 100000, memory_max_file_mb := 600,
    memory_max_writes_per_second := 20, memory_table_limit := some 4000 }

/-! ### Claim C1 -/

/-- C1 (code bug evidence).  With hot cap C=3 and N=6 rows, one `maintain()`
call does leave the hot table with 3 rows, but the N−C=3 oldest rows are
destroyed by `_enforce_table_limits` *before* `_rotate_old_records` runs, so
the rotation count is 0 and the warm archive gains no summaries — contrary to
the claim (and to `maintain`'s own description of rotating old rows into the
warm archive). -/
theorem maintain_trims_without_archiving :
    ((maintain cfgHot3 stSixRows).1.rows.length = 3) ∧
    ((maintain cfgHot3 stSixRows).2.rotated = 0) ∧
    ((maintain cfgHot3 stSixRows).1.warm = []) := by
  norm_num [maintain, checkSizeLimit, enforceTableLimits, rotateOldRecords,
    stSixRows, cfgHot3, mkRow, sortTsAsc, insertTsAsc, summarizeRows]

/-! ### Claim C4 -/

/-- Config with a 10 MB ceiling for the size-recovery scenario. -/
def cfgCeiling : MemConfig :=
  { hot_memory_row_cap := 100, hot_rotation_chunk := 10, memory_retention_limit := 100,
    memory_retention_window_seconds := 100000, memory_max_file_mb := 10,
    memory_max_writes_per_second := 4, memory_table_limit := some 4000 }

/-- A store (writes requested at init) whose backing file has grown to 50 MB. -/
def stOversize : MemState :=
  { rows := [mkRow 1 101], next_id := 2, warm := [], allow_writes := true,
    disabled_due_to_size := false, disabled_reason := "", write_timestamps := [],
    breaker := memBreaker, dbFail := false, sizeMb := some 50,
    profiles := [], relationships := [] }

/-- The stimulus used for the write attempt after recovery. -/
def stimAfter : StimRec :=
  { type := "discord_message", source := "test", context := "{}",
    salience := 2/5, routing := "directed", timestamp := 150 }

/-- State after `maintain()` sees the oversized file: disabled. -/
def stDisabled : MemState := (maintain cfgCeiling stOversize).1

/-- State after a later `maintain()` sees the file back at 5 MB. -/
def stRecovered : MemState :=
  (maintain cfgCeiling { stDisabled with sizeMb := some 5 }).1

/-- A `record()` attempt against the recovered store. -/
def writeAfterRecovery : MemState × Bool :=
  record cfgCeiling "global" stimAfter "{}" "observe" "{}" "{}" (1/10)
    200 200 200 stRecovered

/-- C4 (code bug evidence).  Exceeding the ceiling disables the store and
clears `allow_writes`; after the size drops back under the limit the next
`maintain()` clears the disabled flag and reads serve stored data again, but
`allow_writes` is never restored, so every write is still rejected — contrary
to the claim (and to the source comment "If size recovers, allow_writes stays
whatever was requested at init"). -/
theorem size_recovery_leaves_writes_disabled :
    stDisabled.disabled_due_to_size = true ∧ stDisabled.allow_writes = false ∧
    stRecovered.disabled_due_to_size = false ∧ stRecovered.allow_writes = false ∧
    writeAfterRecovery.2 = false ∧ writeAfterRecovery.1.rows = stRecovered.rows ∧
    fetchRecent stRecovered "global" 10 = .ok [mkRow 1 101] := by
  norm_num [stDisabled, stRecovered, writeAfterRecovery, maintain, checkSizeLimit,
    enforceTableLimits, rotateOldRecords, stOversize, cfgCeiling, mkRow, record,
    executeWrite, fetchRecent, sortTsAsc, insertTsAsc, sortTsDesc, insertTsDesc]

/-! ### Claim C3 -/

/-- A store whose backend raises on every query (e.g. missing `memory` table
after a disabled-at-init start, or a locked/corrupt database). -/
def stBackendFail : MemState :=
  { rows := [], next_id := 1, warm := [], allow_writes := true,
    disabled_due_to_size := false, disabled_reason := "", write_timestamps := [],
    breaker := memBreaker, dbFail := true, sizeMb := some 1,
    profiles := [], relationships := [] }

/-- C3 counterexample.  `fetch_recent` and `echoes` have no exception
handling: on a failing backend they propagate the error instead of returning
an empty result, refuting "never raises an exception to the caller" for every
read operation. -/
theorem fetch_recent_propagates_backend_failure :
    fetchRecent stBackendFail "global" 10 = .error "database error" ∧
    echoes stBackendFail "global" stimAfter 1000 3 = .error "database error" := by
  constructor <;> norm_num [fetchRecent, echoes, stBackendFail]

/-- C3 (amended).  Profile and relationship getters return defaults on any
failure (size-disabled or backend failure) and never raise; `fetch_recent`
and `echoes` return empty results when the store is size-disabled (but
propagate backend failures, per the counterexample); every returned echo's
salience is decayed by age via `decay = 1/(1+age_hours/24)` with
`age_hours = max(0.1, (now-ts)/3600)`. -/
theorem memory_reads_degrade_amended :
    (∀ (st : MemState) (server user : String),
      st.dbFail = true ∨ st.disabled_due_to_size = true →
      getUserProfile st server user = PROFILE_DEFAULTS) ∧
    (∀ (st : MemState) (server ua ub : String),
      st.dbFail = true ∨ st.disabled_due_to_size = true →
      getRelationship st server ua ub = RELATIONSHIP_DEFAULTS) ∧
    (∀ (st : MemState) (server : String) (n : Nat),
      st.disabled_due_to_size = true → fetchRecent st server n = .ok []) ∧
    (∀ (st : MemState) (server : String) (stim : StimRec) (now : ℚ) (n : Nat),
      st.disabled_due_to_size = true → echoes st server stim now n = .ok []) ∧
    (∀ (st : MemState) (server : String) (stim : StimRec) (now : ℚ) (n : Nat)
       (es : List StimRec) (e : StimRec),
      echoes st server stim now n = .ok es → e ∈ es →
      e.salience = min 1 (stim.salience * (7/10) *
        (1 / (1 + (max (1/10) ((now - e.timestamp) / 3600)) / 24)))) := by
  refine ⟨?_, ?_, ?_, ?_, ?_⟩
  · intro st server user h
    rcases h with h | h <;> simp [getUserProfile, h]
  · intro st server ua ub h
    rcases h with h | h <;> simp [getRelationship, h]
  · intro st server n h
    simp [fetchRecent, h]
  · intro st server stim now n h
    simp [echoes, h]
  · intro st server stim now n es e hes he
    unfold echoes at hes
    by_cases hd : st.disabled_due_to_size = true
    · rw [if_pos hd] at hes
      cases hes
      exact absurd he (List.not_mem_nil e)
    · rw [if_neg hd] at hes
      by_cases hf : st.dbFail = true
      · rw [if_pos hf] at hes
        cases hes
      · rw [if_neg hf] at hes
        simp only [Except.ok.injEq] at hes
        subst hes
        obtain ⟨r, _, rfl⟩ := List.mem_map.mp he
        rfl

/-- Witness for `memory_reads_degrade_amended` on a concrete failing store and
a concrete echo list. -/
theorem memory_reads_degrade_amended_inst :
    (stBackendFail.dbFail = true ∨ stBackendFail.disabled_due_to_size = true) ∧
    getUserProfile stBackendFail "g" "u" = PROFILE_DEFAULTS ∧
    getRelationship stBackendFail "g" "a" "b" = RELATIONSHIP_DEFAULTS := by
  refine ⟨Or.inl rfl, ?_, ?_⟩
  · exact memory_reads_degrade_amended.1 stBackendFail "g" "u" (Or.inl rfl)
  · exact (memory_reads_degrade_amended.2.1) stBackendFail "g" "a" "b" (Or.inl rfl)

/-! ### Claim C7: the rolling write-rate limiter -/

/-- One call into `_execute_write`: the clock at the rate check, the clock at
the commit, and the SQL work performed by the writer callback. -/
structure WriteAttempt where
  tCheck : ℚ
  tCommit : ℚ
  writer : List MemRow × Nat → List MemRow × Nat

/-- Run a sequence of write calls, collecting the timestamps of the writes
that actually committed. -/
def runWrites (cfg : MemConfig) : List WriteAttempt → MemState → MemState × List ℚ
  | [], st => (st, [])
  | w :: rest, st =>
    let r := executeWrite cfg w.writer w.tCheck w.tCommit st
    let q := runWrites cfg rest r.1
    (q.1, (if r.2 then [w.tCommit] else []) ++ q.2)

/-- Serialized, monotone wall clock across the calls: each call's check
precedes its commit, and the next call's check does not precede the previous
commit. -/
inductive ChainOK : ℚ → List WriteAttempt → Prop where
  | nil (t : ℚ) : ChainOK t []
  | cons {t : ℚ} {w : WriteAttempt} {rest : List WriteAttempt} :
      t ≤ w.tCheck → w.tCheck ≤ w.tCommit → ChainOK w.tCommit rest →
      ChainOK t (w :: rest)

/-- Number of timestamps inside the rolling 1-second window `[a, a+1]`. -/
def windowCount (a : ℚ) (l : List ℚ) : Nat :=
  l.countP (fun c => decide (a ≤ c ∧ c ≤ a + 1))

/-- Shape of one `_execute_write` call with respect to the rate-limit deque:
when skipped, the deque is either untouched or merely pruned; when committed,
the pruned deque was strictly under the cap and gains the commit timestamp. -/
theorem executeWrite_spec (cfg : MemConfig) (wr : List MemRow × Nat → List MemRow × Nat)
    (tC tK : ℚ) (st : MemState) :
    ((executeWrite cfg wr tC tK st).2 = false ∧
      (executeWrite cfg wr tC tK st).1.rows = st.rows ∧
      ((executeWrite cfg wr tC tK st).1.write_timestamps = st.write_timestamps ∨
       (executeWrite cfg wr tC tK st).1.write_timestamps = pruneWrites tC st.write_timestamps)) ∨
    ((executeWrite cfg wr tC tK st).2 = true ∧
      (executeWrite cfg wr tC tK st).1.write_timestamps =
        pruneWrites tC st.write_timestamps ++ [tK] ∧
      (pruneWrites tC st.write_timestamps).length + 1 ≤ cfg.memory_max_writes_per_second) := by
  unfold executeWrite
  dsimp only
  split
  · exact Or.inl ⟨rfl, rfl, Or.inl rfl⟩
  · split
    · exact Or.inl ⟨rfl, rfl, Or.inl rfl⟩
    · split
      · exact Or.inl ⟨rfl, rfl, Or.inr rfl⟩
      · split
        · exact Or.inl ⟨rfl, rfl, Or.inr rfl⟩
        · split
          · exact Or.inl ⟨rfl, rfl, Or.inr rfl⟩
          · rename_i hrate _ _
            exact Or.inr ⟨rfl, rfl, by omega⟩

/-- A write arriving while the pruned window is at the cap is skipped: it does
not commit and leaves the table untouched (and, being a plain early return,
nothing is raised). -/
theorem executeWrite_at_cap (cfg : MemConfig) (wr : List MemRow × Nat → List MemRow × Nat)
    (tC tK : ℚ) (st : MemState)
    (h : cfg.memory_max_writes_per_second ≤ (pruneWrites tC st.write_timestamps).length) :
    (executeWrite cfg wr tC tK st).2 = false ∧
    (executeWrite cfg wr tC tK st).1.rows = st.rows := by
  rcases executeWrite_spec cfg wr tC tK st with ⟨hF, hrows, _⟩ | ⟨_, _, hLen⟩
  · exact ⟨hF, hrows⟩
  · omega

/-- Main inductive invariant behind C7.  `past` is the full history of
committed timestamps so far, decomposed as a stale prefix `p` (each expired
more than a second before any future clock reading) followed by the live
deque.  なら every rolling window stays under the cap after any further
sequence of calls. -/
theorem runWrites_window_bound (cfg : MemConfig) :
    ∀ (attempts : List WriteAttempt) (st : MemState) (tPrev : ℚ) (past stale : List ℚ),
      ChainOK tPrev attempts →
      past = stale ++ st.write_timestamps →
      (∀ x ∈ stale, x + 1 < tPrev) →
      (∀ a, windowCount a past ≤ cfg.memory_max_writes_per_second) →
      ∀ a, windowCount a (past ++ (runWrites cfg attempts st).2) ≤
        cfg.memory_max_writes_per_second := by
  intro attempts
  induction attempts with
  | nil =>
    intro st tPrev past stale _ _ _ hwin a
    simpa [runWrites] using hwin a
  | cons w rest ih =>
    intro st tPrev past stale hchain hdecomp hstale hwin a
    cases hchain with
    | cons h1 h2 h3 =>
      have hsplit : st.write_timestamps =
          st.write_timestamps.takeWhile (fun ts => decide (1 < w.tCheck - ts)) ++
          pruneWrites w.tCheck st.write_timestamps := by
        unfold pruneWrites
        exact (List.takeWhile_append_dropWhile _ _).symm
      have htake : ∀ x ∈ st.write_timestamps.takeWhile (fun ts => decide (1 < w.tCheck - ts)),
          x + 1 < w.tCheck := by
        intro x hx
        have := pred_true_of_mem_takeWhile _ _ _ hx
        rw [decide_eq_true_eq] at this
        linarith
      rcases executeWrite_spec cfg w.writer w.tCheck w.tCommit st with
        ⟨hF, _, hW⟩ | ⟨hT, hW, hLen⟩
      · -- the call skipped: no new commit
        have hrun : (runWrites cfg (w :: rest) st).2 =
            (runWrites cfg rest (executeWrite cfg w.writer w.tCheck w.tCommit st).1).2 := by
          simp [runWrites, hF]
        rw [hrun]
        rcases hW with hW | hW
        · exact ih _ w.tCommit past stale h3 (by rw [hdecomp, hW])
            (fun x hx => lt_of_lt_of_le (hstale x hx) (le_trans h1 h2)) hwin a
        · refine ih _ w.tCommit past
            (stale ++ st.write_timestamps.takeWhile (fun ts => decide (1 < w.tCheck - ts)))
            h3 ?_ ?_ hwin a
          · rw [hdecomp, hW, List.append_assoc]
            exact congrArg (stale ++ ·) hsplit
          · intro x hx
            rcases List.mem_append.mp hx with hx | hx
            · exact lt_of_lt_of_le (hstale x hx) (le_trans h1 h2)
            · exact lt_of_lt_of_le (htake x hx) h2
      · -- the call committed at w.tCommit
        have hrun : (runWrites cfg (w :: rest) st).2 =
            [w.tCommit] ++ (runWrites cfg rest (executeWrite cfg w.writer w.tCheck w.tCommit st).1).2 := by
          simp [runWrites, hT]
        have hstale' : ∀ x ∈ stale ++
            st.write_timestamps.takeWhile (fun ts => decide (1 < w.tCheck - ts)),
            x + 1 < w.tCommit := by
          intro x hx
          rcases List.mem_append.mp hx with hx | hx
          · exact lt_of_lt_of_le (hstale x hx) (le_trans h1 h2)
          · exact lt_of_lt_of_le (htake x hx) h2
        have hstale'' : ∀ x ∈ stale ++
            st.write_timestamps.takeWhile (fun ts => decide (1 < w.tCheck - ts)),
            x + 1 < w.tCheck := by
          intro x hx
          rcases List.mem_append.mp hx with hx | hx
          · exact lt_of_lt_of_le (hstale x hx) h1
          · exact htake x hx
        have hdecomp' : past ++ [w.tCommit] =
            (stale ++ st.write_timestamps.takeWhile (fun ts => decide (1 < w.tCheck - ts))) ++
            (executeWrite cfg w.writer w.tCheck w.tCommit st).1.write_timestamps := by
          rw [hW, hdecomp, List.append_assoc, List.append_assoc]
          refine congrArg (stale ++ ·) ?_
          rw [← List.append_assoc]
          exact congrArg (· ++ [w.tCommit]) hsplit
        have hwin' : ∀ b, windowCount b (past ++ [w.tCommit]) ≤
            cfg.memory_max_writes_per_second := by
          intro b
          unfold windowCount at *
          rw [List.countP_append]
          by_cases hin : b ≤ w.tCommit ∧ w.tCommit ≤ b + 1
          · have hone : List.countP (fun c => decide (b ≤ c ∧ c ≤ b + 1)) [w.tCommit] = 1 := by
              simp [List.countP_cons, hin]
            rw [hone]
            -- windowCount b past counts only entries of the live pruned deque
            have hpast : List.countP (fun c => decide (b ≤ c ∧ c ≤ b + 1)) past =
                List.countP (fun c => decide (b ≤ c ∧ c ≤ b + 1))
                  (pruneWrites w.tCheck st.write_timestamps) := by
              have : past =
                  (stale ++ st.write_timestamps.takeWhile (fun ts => decide (1 < w.tCheck - ts))) ++
                  pruneWrites w.tCheck st.write_timestamps := by
                rw [hdecomp, List.append_assoc]
                exact congrArg (stale ++ ·) hsplit
              rw [this, List.countP_append]
              have hzero : List.countP (fun c => decide (b ≤ c ∧ c ≤ b + 1))
                  (stale ++ st.write_timestamps.takeWhile (fun ts => decide (1 < w.tCheck - ts))) = 0 := by
                rw [List.countP_eq_zero]
                intro x hx
                rw [decide_eq_true_eq]
                rintro ⟨hbx, _⟩
                have hx1 : x + 1 < w.tCheck := hstale'' x hx
                have : w.tCommit ≤ b + 1 := hin.2
                have : w.tCheck ≤ w.tCommit := h2
                linarith
              rw [hzero, Nat.zero_add]
            rw [hpast]
            have := List.countP_le_length
              (p := fun c => decide (b ≤ c ∧ c ≤ b + 1))
              (l := pruneWrites w.tCheck st.write_timestamps)
            omega
          · have hzero : List.countP (fun c => decide (b ≤ c ∧ c ≤ b + 1)) [w.tCommit] = 0 := by
              simp [List.countP_cons, hin]
            rw [hzero]
            simpa using hwin b
        rw [hrun]
        have := ih _ w.tCommit (past ++ [w.tCommit])
          (stale ++ st.write_timestamps.takeWhile (fun ts => decide (1 < w.tCheck - ts)))
          h3 hdecomp' hstale' hwin' a
        rw [← List.append_assoc]
        exact this

/-- C7.  From a fresh store (`write_timestamps = []`), under a serialized,
monotone, positive clock, the committed writes in any rolling 1-second window
never exceed `memory_max_writes_per_second`; and a write arriving while the
pruned window is at the cap is skipped silently (not committed, table
untouched). -/
theorem memory_write_rate_limit_holds (cfg : MemConfig) (attempts : List WriteAttempt)
    (st0 : MemState) (t0 : ℚ) (hstart : st0.write_timestamps = [])
    (hpos : 0 < t0) (hchain : ChainOK t0 attempts) :
    (∀ a : ℚ, windowCount a (runWrites cfg attempts st0).2 ≤
      cfg.memory_max_writes_per_second) ∧
    (∀ (wr : List MemRow × Nat → List MemRow × Nat) (tC tK : ℚ) (st : MemState),
      cfg.memory_max_writes_per_second ≤ (pruneWrites tC st.write_timestamps).length →
      (executeWrite cfg wr tC tK st).2 = false ∧
      (executeWrite cfg wr tC tK st).1.rows = st.rows) := by
  constructor
  · intro a
    have := runWrites_window_bound cfg attempts st0 t0 [] [] hchain
      (by rw [hstart]; rfl) (by intro x hx; exact absurd hx (List.not_mem_nil x))
      (by intro b; simp [windowCount]) a
    simpa using this
  · intro wr tC tK st h
    exact executeWrite_at_cap cfg wr tC tK st h

/-- Witness for the rate-limit theorem: three concrete back-to-back write
calls against a fresh store with cap 2. -/
def cfgCap2 : MemConfig :=
  { hot_memory_row_cap := 100, hot_rotation_chunk := 10, memory_retention_limit := 100,
    memory_retention_window_seconds := 100000, memory_max_file_mb := 600,
    memory_max_writes_per_second := 2, memory_table_limit := some 4000 }

def stFresh : MemState :=
  { rows := [], next_id := 1, warm := [], allow_writes := true,
    disabled_due_to_size := false, disabled_reason := "", write_timestamps := [],
    breaker := memBreaker, dbFail := false, sizeMb := some 1,
    profiles := [], relationships := [] }

def burstAttempts : List WriteAttempt :=
  [⟨10, 10, fun q => q⟩, ⟨10, 10, fun q => q⟩, ⟨10, 10, fun q => q⟩]

theorem memory_write_rate_limit_holds_inst :
    stFresh.write_timestamps = [] ∧ (0 : ℚ) < 10 ∧
    (∀ a : ℚ, windowCount a (runWrites cfgCap2 burstAttempts stFresh).2 ≤
      cfgCap2.memory_max_writes_per_second) := by
  have hchain : ChainOK 10 burstAttempts :=
    ChainOK.cons (le_refl _) (le_refl _)
      (ChainOK.cons (le_refl _) (le_refl _)
        (ChainOK.cons (le_refl _) (le_refl _) (ChainOK.nil _)))
  exact ⟨rfl, by norm_num,
    (memory_write_rate_limit_holds cfgCap2 burstAttempts stFresh 10 rfl (by norm_num) hchain).1⟩

/-! ### Governor (src/vyxen_core/governor.py) -/

structure ActionIntent where
  type : String
  target_id : Option Int
  payload : List (String × String)
  metadata : List (String × String)
deriving Repr, DecidableEq

structure RealityOutput where
  reality : String
  recommended_action : Option ActionIntent
  confidence : ℚ
  risk : ℚ
  justification : String
deriving Repr, DecidableEq

structure GovernorDecision where
  action : ActionIntent
  confidence : ℚ
  risk : ℚ
  rationale : String
deriving Repr, DecidableEq

/-- Identity trait values read by `Governor._score`. -/
structure IdentityVals where
  assertiveness : ℚ
  caution : ℚ
  curiosity : ℚ
deriving Repr, DecidableEq

/-- The `observe` fallback intent built at the top of `deliberate`. -/
def observeIntent : ActionIntent :=
  { type := "observe", target_id := none, payload := [], metadata := [] }

/-- `Governor._score(output, memory_bias)`. -/
def scoreOutput (idv : IdentityVals) (o : RealityOutput) (memory_bias : ℚ) : ℚ :=
  o.confidence * (1 - o.risk) *
    (1 + (1/5) * (idv.assertiveness - idv.caution) + (1/10) * idv.curiosity + memory_bias)

/-- One iteration of the candidate loop in `deliberate`: outputs without a
recommended action are skipped, and a strictly larger score replaces the
incumbent. -/
def selectStep (idv : IdentityVals) (mb : ℚ) (acc : Option GovernorDecision × ℚ)
    (o : RealityOutput) : Option GovernorDecision × ℚ :=
  match o.recommended_action with
  | none => acc
  | some act =>
    if acc.2 < scoreOutput idv o mb then
      (some { action := act, confidence := o.confidence, risk := o.risk,
              rationale := o.justification }, scoreOutput idv o mb)
    else acc

/-- The candidate loop, started from `best = None`, `best_score = -1.0`. -/
def selectBest (idv : IdentityVals) (mb : ℚ) (outputs : List RealityOutput) :
    Option GovernorDecision × ℚ :=
  outputs.foldl (selectStep idv mb) (none, -1)

/-- `memory_bias`: mean `confidence_delta` over the fetched records (0 when
none). -/
def memoryBias (recent : List MemRow) : ℚ :=
  if recent.isEmpty then 0 else (recent.map MemRow.cdelta).sum / recent.length

/-- The not-directed early return of `deliberate`. -/
def ambientDecision : GovernorDecision :=
  { action := observeIntent, confidence := 7/20, risk := 1/20,
    rationale := "Ambient stimulus without active session or mention." }

/-- The `best is None` fallback of `deliberate`. -/
def noRecDecision : GovernorDecision :=
  { action := observeIntent, confidence := 3/10, risk := 1/10,
    rationale := "No strong recommendation; choosing deliberate observation." }

/-- The safety-override return of `deliberate`. -/
def overrideDecision : GovernorDecision :=
  { action := observeIntent, confidence := 2/5, risk := 1/20,
    rationale := "Risk exceeded confidence; opting to hold position." }

/-- `Governor.deliberate(server_id, realities, directed)`.  The governor calls
`memory.fetch_recent(server_id, limit=6)` without exception handling, so a
backend failure there propagates. -/
def deliberate (idv : IdentityVals) (st : MemState) (server : String)
    (realities : List RealityOutput) (directed : Bool) :
    Except String GovernorDecision :=
  if ¬ directed then .ok ambientDecision
  else
    match fetchRecent st server 6 with
    | .error e => .error e
    | .ok recent =>
      let mb := memoryBias recent
      match (selectBest idv mb realities).1 with
      | none => .ok noRecDecision
      | some best =>
        if 7/10 - mb * (1/5) < best.risk ∧ best.confidence < 7/10 then
          .ok overrideDecision
        else .ok best

/-! #### Selection-loop facts -/

theorem foldl_selectStep_spec (idv : IdentityVals) (mb : ℚ) :
    ∀ (outputs : List RealityOutput) (acc : Option GovernorDecision × ℚ),
      acc.2 ≤ (outputs.foldl (selectStep idv mb) acc).2 ∧
      ((outputs.foldl (selectStep idv mb) acc) = acc ∨
        ∃ o ∈ outputs, ∃ act, o.recommended_action = some act ∧
          (outputs.foldl (selectStep idv mb) acc).1 =
            some { action := act, confidence := o.confidence, risk := o.risk,
                   rationale := o.justification } ∧
          (outputs.foldl (selectStep idv mb) acc).2 = scoreOutput idv o mb) ∧
      (∀ o ∈ outputs, o.recommended_action ≠ none →
        scoreOutput idv o mb ≤ (outputs.foldl (selectStep idv mb) acc).2) := by
  intro outputs
  induction outputs with
  | nil =>
    intro acc
    exact ⟨le_refl _, Or.inl rfl, by intro o ho; exact absurd ho (List.not_mem_nil o)⟩
  | cons o os ih =>
    intro acc
    have hstep : (o :: os).foldl (selectStep idv mb) acc =
        os.foldl (selectStep idv mb) (selectStep idv mb acc o) := by
      simp [List.foldl_cons]
    obtain ⟨iha, ihb, ihc⟩ := ih (selectStep idv mb acc o)
    have hacc : acc.2 ≤ (selectStep idv mb acc o).2 ∧
        ((selectStep idv mb acc o) = acc ∨
          ∃ act, o.recommended_action = some act ∧
            (selectStep idv mb acc o).1 =
              some { action := act, confidence := o.confidence, risk := o.risk,
                     rationale := o.justification } ∧
            (selectStep idv mb acc o).2 = scoreOutput idv o mb) := by
      unfold selectStep
      cases hoa : o.recommended_action with
      | none => exact ⟨le_refl _, Or.inl rfl⟩
      | some act =>
        dsimp only
        by_cases hlt : acc.2 < scoreOutput idv o mb
        · rw [if_pos hlt]
          exact ⟨le_of_lt hlt, Or.inr ⟨act, rfl, rfl, rfl⟩⟩
        · rw [if_neg hlt]
          exact ⟨le_refl _, Or.inl rfl⟩
    refine ⟨?_, ?_, ?_⟩
    · rw [hstep]; exact le_trans hacc.1 iha
    · rw [hstep]
      rcases ihb with h | ⟨o', ho', hrest⟩
      · rw [h]
        rcases hacc.2 with h2 | ⟨act, hact⟩
        · exact Or.inl h2
        · exact Or.inr ⟨o, List.mem_cons_self o os, act, hact⟩
      · exact Or.inr ⟨o', List.mem_cons_of_mem o ho', hrest⟩
    · intro o' ho' hne
      rw [hstep]
      rcases List.mem_cons.mp ho' with rfl | hmem
      · -- the head candidate's score is dominated by the step result
        have hdom : scoreOutput idv o' mb ≤ (selectStep idv mb acc o').2 := by
          unfold selectStep
          cases hoa : o'.recommended_action with
          | none => exact absurd hoa hne
          | some act =>
            dsimp only
            by_cases hlt : acc.2 < scoreOutput idv o' mb
            · rw [if_pos hlt]
            · rw [if_neg hlt]
              exact le_of_not_lt hlt
        exact le_trans hdom iha
      · exact ihc o' hmem hne

/-! #### Bounds on the memory bias -/

theorem list_sum_le_length (l : List ℚ) (h : ∀ x ∈ l, x ≤ 1) :
    l.sum ≤ (l.length : ℚ) := by
  induction l with
  | nil => simp
  | cons x xs ih =>
    have hx := h x (List.mem_cons_self x xs)
    have hxs := ih (fun y hy => h y (List.mem_cons_of_mem x hy))
    simp only [List.sum_cons, List.length_cons]
    push_cast
    linarith

theorem neg_length_le_list_sum (l : List ℚ) (h : ∀ x ∈ l, -1 ≤ x) :
    -(l.length : ℚ) ≤ l.sum := by
  induction l with
  | nil => simp
  | cons x xs ih =>
    have hx := h x (List.mem_cons_self x xs)
    have hxs := ih (fun y hy => h y (List.mem_cons_of_mem x hy))
    simp only [List.sum_cons, List.length_cons]
    push_cast
    linarith

theorem memoryBias_bounds (recent : List MemRow)
    (h : ∀ r ∈ recent, -1 ≤ r.cdelta ∧ r.cdelta ≤ 1) :
    -1 ≤ memoryBias recent ∧ memoryBias recent ≤ 1 := by
  unfold memoryBias
  cases recent with
  | nil => norm_num
  | cons r rs =>
    have hne : ((r :: rs).isEmpty) = false := rfl
    rw [hne]
    simp only [Bool.false_eq_true, if_false]
    have hlenpos : (0 : ℚ) < ((r :: rs).length : ℚ) := by
      have : 0 < (r :: rs).length := Nat.succ_pos _
      exact_mod_cast this
    have hmap_hi : ((r :: rs).map MemRow.cdelta).sum ≤ (((r :: rs).map MemRow.cdelta).length : ℚ) := by
      refine list_sum_le_length _ ?_
      intro x hx
      obtain ⟨rr, hrr, rfl⟩ := List.mem_map.mp hx
      exact (h rr hrr).2
    have hmap_lo : -((((r :: rs).map MemRow.cdelta).length : ℚ)) ≤ ((r :: rs).map MemRow.cdelta).sum := by
      refine neg_length_le_list_sum _ ?_
      intro x hx
      obtain ⟨rr, hrr, rfl⟩ := List.mem_map.mp hx
      exact (h rr hrr).1
    rw [List.length_map] at hmap_hi hmap_lo
    constructor
    · rw [le_div_iff hlenpos]
      linarith
    · rw [div_le_one hlenpos]
      linarith

/-- Rows returned by `fetch_recent` are rows of the store. -/
theorem mem_insertTsDesc {x r : MemRow} : ∀ {l : List MemRow},
    x ∈ insertTsDesc r l → x = r ∨ x ∈ l := by
  intro l
  induction l with
  | nil =>
    intro hx
    simpa [insertTsDesc] using hx
  | cons y ys ih =>
    intro hx
    unfold insertTsDesc at hx
    by_cases hc : y.ts ≤ r.ts
    · rw [if_pos hc] at hx
      rcases List.mem_cons.mp hx with h | h
      · exact Or.inl h
      · exact Or.inr h
    · rw [if_neg hc] at hx
      rcases List.mem_cons.mp hx with h | h
      · exact Or.inr (h ▸ List.mem_cons_self y ys)
      · rcases ih h with h' | h'
        · exact Or.inl h'
        · exact Or.inr (List.mem_cons_of_mem y h')

theorem mem_sortTsDesc {x : MemRow} : ∀ {l : List MemRow}, x ∈ sortTsDesc l → x ∈ l := by
  intro l
  induction l with
  | nil => intro hx; simpa [sortTsDesc] using hx
  | cons y ys ih =>
    intro hx
    unfold sortTsDesc at hx
    rw [List.foldr_cons] at hx
    rcases mem_insertTsDesc hx with h | h
    · exact h ▸ List.mem_cons_self y ys
    · exact List.mem_cons_of_mem y (ih h)

theorem fetchRecent_rows_sub {st : MemState} {server : String} {n : Nat}
    {recent : List MemRow} (hfetch : fetchRecent st server n = .ok recent) :
    ∀ r ∈ recent, r ∈ st.rows := by
  intro r hr
  unfold fetchRecent at hfetch
  by_cases hd : st.disabled_due_to_size = true
  · rw [if_pos hd] at hfetch
    cases hfetch
    exact absurd hr (List.not_mem_nil r)
  · rw [if_neg hd] at hfetch
    by_cases hf : st.dbFail = true
    · rw [if_pos hf] at hfetch
      cases hfetch
    · rw [if_neg hf] at hfetch
      simp only [Except.ok.injEq] at hfetch
      subst hfetch
      have h1 : r ∈ sortTsDesc (st.rows.filter (fun r => decide (r.server_id = server))) :=
        List.take_subset _ _ hr
      have h2 := mem_sortTsDesc h1
      exact List.mem_of_mem_filter h2

/-- Folding the candidate loop over outputs that all lack a recommended
action leaves the accumulator untouched. -/
theorem foldl_selectStep_all_none (idv : IdentityVals) (mb : ℚ) :
    ∀ (outputs : List RealityOutput) (acc : Option GovernorDecision × ℚ),
      (∀ o ∈ outputs, o.recommended_action = none) →
      outputs.foldl (selectStep idv mb) acc = acc := by
  intro outputs
  induction outputs with
  | nil => intro acc _; rfl
  | cons o os ih =>
    intro acc h
    rw [List.foldl_cons]
    have hstep : selectStep idv mb acc o = acc := by
      unfold selectStep
      rw [h o (List.mem_cons_self o os)]
    rw [hstep]
    exact ih acc (fun o' ho' => h o' (List.mem_cons_of_mem o ho'))

/-- In a directed call, `deliberate` reduces to the selection-plus-override
core over the fetched records. -/
theorem deliberate_directed_eq (idv : IdentityVals) (st : MemState) (server : String)
    (realities : List RealityOutput) (recent : List MemRow)
    (hfetch : fetchRecent st server 6 = .ok recent) :
    deliberate idv st server realities true =
      (match (selectBest idv (memoryBias recent) realities).1 with
       | none => .ok noRecDecision
       | some best =>
         if 7/10 - memoryBias recent * (1/5) < best.risk ∧ best.confidence < 7/10 then
           .ok overrideDecision
         else .ok best) := by
  unfold deliberate
  rw [if_neg (by simp), hfetch]

/-! ### Claim C5 -/

/-- C5.  Provided every stored record's `confidence_delta` lies in `[-1, 1]`
(the range the reflection path writes, since decisions carry confidence and
risk in `[0,1]`), no decision returned by `deliberate` carries
`risk > 0.7 - 0.2*memory_bias` together with `confidence < 0.7`: the
safety override replaces any such selected candidate by the `observe`
fallback, and all fallbacks sit well under the threshold. -/
theorem governor_never_returns_risky_lowconf (idv : IdentityVals) (st : MemState)
    (server : String) (realities : List RealityOutput) (directed : Bool)
    (hrows : ∀ r ∈ st.rows, -1 ≤ r.cdelta ∧ r.cdelta ≤ 1) :
    ∀ (d : GovernorDecision) (recent : List MemRow),
      deliberate idv st server realities directed = .ok d →
      fetchRecent st server 6 = .ok recent →
      ¬(7/10 - memoryBias recent * (1/5) < d.risk ∧ d.confidence < 7/10) := by
  intro d recent hdel hfetch
  have hmb : -1 ≤ memoryBias recent ∧ memoryBias recent ≤ 1 :=
    memoryBias_bounds recent (fun r hr => hrows r (fetchRecent_rows_sub hfetch r hr))
  have hthr : (1/10 : ℚ) ≤ 7/10 - memoryBias recent * (1/5) := by
    have := hmb.2
    linarith
  by_cases hdir : directed = true
  · subst hdir
    rw [deliberate_directed_eq idv st server realities recent hfetch] at hdel
    cases hsel : (selectBest idv (memoryBias recent) realities).1 with
    | none =>
      rw [hsel] at hdel
      simp only [Except.ok.injEq] at hdel
      subst hdel
      rintro ⟨hlt, _⟩
      rw [noRecDecision] at hlt
      simp only at hlt
      linarith
    | some best =>
      rw [hsel] at hdel
      dsimp only at hdel
      by_cases hov : 7/10 - memoryBias recent * (1/5) < best.risk ∧ best.confidence < 7/10
      · rw [if_pos hov] at hdel
        simp only [Except.ok.injEq] at hdel
        subst hdel
        rintro ⟨hlt, _⟩
        rw [overrideDecision] at hlt
        simp only at hlt
        linarith
      · rw [if_neg hov] at hdel
        simp only [Except.ok.injEq] at hdel
        subst hdel
        exact hov
  · have hdir' : directed = false := by
      revert hdir; cases directed <;> simp
    subst hdir'
    unfold deliberate at hdel
    rw [if_pos (by simp)] at hdel
    simp only [Except.ok.injEq] at hdel
    subst hdel
    rintro ⟨hlt, _⟩
    rw [ambientDecision] at hlt
    simp only at hlt
    linarith

/-- Identity with all traits at 0.5. -/
def idvHalf : IdentityVals := ⟨1/2, 1/2, 1/2⟩

/-- A candidate whose risk exceeds the threshold while confidence is low. -/
def riskyOutput : RealityOutput :=
  { reality := "social",
    recommended_action := some { type := "send_message", target_id := some 1,
                                 payload := [], metadata := [] },
    confidence := 1/2, risk := 9/10, justification := "risky push" }

/-- Witness for the override theorem: on a fresh store the risky candidate is
selected and then overridden to `observe`. -/
theorem governor_never_returns_risky_lowconf_inst :
    (∀ r ∈ stFresh.rows, -1 ≤ r.cdelta ∧ r.cdelta ≤ 1) ∧
    deliberate idvHalf stFresh "global" [riskyOutput] true = .ok overrideDecision ∧
    fetchRecent stFresh "global" 6 = .ok [] ∧
    ¬(7/10 - memoryBias [] * (1/5) < overrideDecision.risk ∧
      overrideDecision.confidence < 7/10) := by
  have hrows : ∀ r ∈ stFresh.rows, -1 ≤ r.cdelta ∧ r.cdelta ≤ 1 := by
    intro r hr
    simp [stFresh] at hr
  have hfetch : fetchRecent stFresh "global" 6 = .ok [] := by
    norm_num [fetchRecent, stFresh, sortTsDesc]
  have hdel : deliberate idvHalf stFresh "global" [riskyOutput] true = .ok overrideDecision := by
    rw [deliberate_directed_eq idvHalf stFresh "global" [riskyOutput] [] hfetch]
    norm_num [selectBest, selectStep, scoreOutput, memoryBias, riskyOutput, idvHalf,
      overrideDecision]
  exact ⟨hrows, hdel, hfetch,
    governor_never_returns_risky_lowconf idvHalf stFresh "global" [riskyOutput] true hrows
      overrideDecision [] hdel hfetch⟩

/-! ### Claim C6 -/

/-- C6.  Non-directed calls return the low-confidence low-risk `observe`
decision immediately.  For directed calls: the fetched record list has length
at most 6 and the bias is its `confidence_delta` mean (`memoryBias`); outputs
all lacking a recommended action give the "no strong recommendation"
fallback; any selected candidate carries the fields of a maximum-score output
(score `confidence * (1-risk) * (1 + 0.2*(assertiveness-caution) +
0.1*curiosity + memory_bias)`), and it is returned whenever the safety
override does not fire; and a candidate с score above the initial −1 sentinel
guarantees a selection exists. -/
theorem governor_deliberate_structure (idv : IdentityVals) (st : MemState)
    (server : String) (realities : List RealityOutput) :
    (deliberate idv st server realities false = .ok ambientDecision) ∧
    (∀ recent, fetchRecent st server 6 = .ok recent →
      recent.length ≤ 6 ∧
      ((∀ o ∈ realities, o.recommended_action = none) →
        deliberate idv st server realities true = .ok noRecDecision) ∧
      (∀ b, (selectBest idv (memoryBias recent) realities).1 = some b →
        ((∃ o ∈ realities, o.recommended_action = some b.action ∧
            b.confidence = o.confidence ∧ b.risk = o.risk ∧
            b.rationale = o.justification ∧
            scoreOutput idv o (memoryBias recent) =
              (selectBest idv (memoryBias recent) realities).2) ∧
         (∀ o ∈ realities, o.recommended_action ≠ none →
            scoreOutput idv o (memoryBias recent) ≤
              (selectBest idv (memoryBias recent) realities).2)) ∧
        (¬(7/10 - memoryBias recent * (1/5) < b.risk ∧ b.confidence < 7/10) →
          deliberate idv st server realities true = .ok b)) ∧
      ((∃ o ∈ realities, o.recommended_action ≠ none ∧
          -1 < scoreOutput idv o (memoryBias recent)) →
        (selectBest idv (memoryBias recent) realities).1 ≠ none)) := by
  constructor
  · unfold deliberate
    rw [if_pos (by simp)]
  · intro recent hfetch
    refine ⟨?_, ?_, ?_, ?_⟩
    · -- at most the last 6 records
      unfold fetchRecent at hfetch
      by_cases hd : st.disabled_due_to_size = true
      · rw [if_pos hd] at hfetch
        cases hfetch
        simp
      · rw [if_neg hd] at hfetch
        by_cases hf : st.dbFail = true
        · rw [if_pos hf] at hfetch
          cases hfetch
        · rw [if_neg hf] at hfetch
          simp only [Except.ok.injEq] at hfetch
          subst hfetch
          exact List.length_take_le _ _
    · intro hnone
      rw [deliberate_directed_eq idv st server realities recent hfetch]
      have : selectBest idv (memoryBias recent) realities = (none, -1) :=
        foldl_selectStep_all_none idv (memoryBias recent) realities (none, -1) hnone
      rw [this]
    · intro b hsel
      obtain ⟨_, hb, hc⟩ :=
        foldl_selectStep_spec idv (memoryBias recent) realities (none, -1)
      constructor
      · constructor
        · rcases hb with h | ⟨o, ho, act, hact, h1, h2⟩
          · rw [show (selectBest idv (memoryBias recent) realities).1 =
                (realities.foldl (selectStep idv (memoryBias recent)) (none, -1)).1 from rfl,
              h] at hsel
            cases hsel
          · refine ⟨o, ho, ?_⟩
            have hb' : b = { action := act, confidence := o.confidence, risk := o.risk,
                             rationale := o.justification } := by
              have := hsel
              rw [show (selectBest idv (memoryBias recent) realities).1 =
                  (realities.foldl (selectStep idv (memoryBias recent)) (none, -1)).1 from rfl,
                h1] at this
              exact (Option.some.injEq _ _ ▸ this).symm
            subst hb'
            exact ⟨hact, rfl, rfl, rfl, h2.symm⟩
        · exact hc
      · intro hno
        rw [deliberate_directed_eq idv st server realities recent hfetch, hsel]
        dsimp only
        rw [if_neg hno]
    · rintro ⟨o, ho, hact, hsc⟩ hnone
      obtain ⟨_, hb, hc⟩ :=
        foldl_selectStep_spec idv (memoryBias recent) realities (none, -1)
      have hle := hc o ho hact
      rcases hb with h | ⟨o', _, act, _, h1, _⟩
      · rw [h] at hle
        dsimp only at hle
        exact absurd hle (not_le.mpr hsc)
      · rw [show (selectBest idv (memoryBias recent) realities).1 =
            (realities.foldl (selectStep idv (memoryBias recent)) (none, -1)).1 from rfl,
          h1] at hnone
        cases hnone

/-- A plain candidate used by the C6 witness. -/
def plainOutput : RealityOutput :=
  { reality := "narrative",
    recommended_action := some { type := "reply", target_id := some 2,
                                 payload := [], metadata := [] },
    confidence := 4/5, risk := 1/10, justification := "calm reply" }

/-- Witness for the deliberation-structure theorem on a fresh store with one
viable candidate: it is selected (no override, confidence 0.8 ≥ 0.7). -/
theorem governor_deliberate_structure_inst :
    deliberate idvHalf stFresh "global" [plainOutput] false = .ok ambientDecision ∧
    fetchRecent stFresh "global" 6 = .ok [] ∧
    ([] : List MemRow).length ≤ 6 ∧
    (selectBest idvHalf (memoryBias []) [plainOutput]).1 ≠ none := by
  have hfetch : fetchRecent stFresh "global" 6 = .ok [] := by
    norm_num [fetchRecent, stFresh, sortTsDesc]
  have hmain := governor_deliberate_structure idvHalf stFresh "global" [plainOutput]
  have hpart := hmain.2 [] hfetch
  have hexist : ∃ o ∈ [plainOutput], o.recommended_action ≠ none ∧
      -1 < scoreOutput idvHalf o (memoryBias []) :=
    ⟨plainOutput, List.mem_cons_self _ _, by simp [plainOutput],
      by norm_num [scoreOutput, plainOutput, idvHalf, memoryBias]⟩
  exact ⟨hmain.1, hfetch, hpart.1, hpart.2.2.2 hexist⟩

/-! ### Safe mode (src/vyxen_core/cognition.py, state.py)

Every write to `state.safe_mode` inside the core is embedded as a step on a
reduced core state.  The only `safe_mode = False` assignment in the whole
program sits in the external adapter command handler
(src/discord_adapter.py:385), outside the core the claims cover. -/

structure CoreState where
  safe_mode : Bool
  memory_allow_writes : Bool
  overrun_note : String
  watchdog_note : String
  last_overrun_reason : String
  last_watchdog_reason : String
  log_ingestion_disabled : Bool
  tick_interval_override : Option ℚ
deriving Repr, DecidableEq

/-- The core steps that read or write `safe_mode`:
* `record_overrun` — `CognitionLoop._record_overrun` (tick timeout, budget
  exhaustion, queue saturation, backlog);
* `tick_exception` — the `except Exception` arm of `CognitionLoop.start`;
* `reflection_failure` — the reflect arm of `CognitionLoop._tick`;
* `watchdog` — `CognitionLoop._watchdog` with its sampled overload verdict;
* `health_slow_read` — the slow-log-read arm of `_health_monitor`;
* `maintenance_report` — `_maintenance_loop` reacting to `maintain()`;
* `decide_downgrade`/`act_dispatch`/`reflect_write`/`status_snapshot` — steps
  that only read `safe_mode` (and the memory store, which never touches it). -/
inductive CoreStep where
  | record_overrun (reason : String)
  | tick_exception
  | reflection_failure
  | watchdog (overload : Bool) (note : String) (watchdogInterval : ℚ)
  | health_slow_read
  | maintenance_report (reportDisabled : Bool)
  | decide_downgrade
  | act_dispatch
  | reflect_write
  | status_snapshot
deriving Repr, DecidableEq

def CoreStep.apply : CoreStep → CoreState → CoreState
  | .record_overrun r, st =>
    { st with overrun_note := r, safe_mode := true,
              memory_allow_writes := false, last_overrun_reason := r }
  | .tick_exception, st =>
    { st with safe_mode := true, memory_allow_writes := false,
              last_overrun_reason := "tick_exception" }
  | .reflection_failure, st => { st with safe_mode := true }
  | .watchdog overload note i, st =>
    if overload then
      { st with safe_mode := true, memory_allow_writes := false,
                tick_interval_override := some i, watchdog_note := note,
                last_watchdog_reason := note }
    else st
  | .health_slow_read, st =>
    { st with log_ingestion_disabled := true, safe_mode := true }
  | .maintenance_report d, st => if d then { st with safe_mode := true } else st
  | .decide_downgrade, st => st
  | .act_dispatch, st => st
  | .reflect_write, st => st
  | .status_snapshot, st => st

/-! ### Claim C9 -/

/-- C9.  No core step ever transitions `safe_mode` from true to false: each
step either forces it to true (overrun, tick exception, reflection failure,
watchdog overload, slow health read, disabled-store maintenance report) or
leaves it unchanged.  Clearing `safe_mode` happens only in the external
adapter command, outside these steps. -/
theorem safe_mode_never_cleared_by_core (s : CoreStep) (st : CoreState)
    (h : st.safe_mode = true) : (s.apply st).safe_mode = true := by
  cases s with
  | record_overrun r => rfl
  | tick_exception => rfl
  | reflection_failure => rfl
  | watchdog overload note i =>
    show (if overload then _ else st).safe_mode = true
    by_cases ho : overload = true
    · rw [if_pos ho]
    · rw [if_neg ho]
      exact h
  | health_slow_read => rfl
  | maintenance_report d =>
    show (if d then _ else st).safe_mode = true
    by_cases hd : d = true
    · rw [if_pos hd]
    · rw [if_neg hd]
      exact h
  | decide_downgrade => exact h
  | act_dispatch => exact h
  | reflect_write => exact h
  | status_snapshot => exact h

/-- Witness: a concrete safe-mode state survives a non-overloaded watchdog
pass. -/
theorem safe_mode_never_cleared_by_core_inst :
    ({ safe_mode := true, memory_allow_writes := false, overrun_note := "",
       watchdog_note := "", last_overrun_reason := "", last_watchdog_reason := "",
       log_ingestion_disabled := false, tick_interval_override := none } :
        CoreState).safe_mode = true ∧
    ((CoreStep.watchdog false "" (3/2)).apply
      { safe_mode := true, memory_allow_writes := false, overrun_note := "",
        watchdog_note := "", last_overrun_reason := "", last_watchdog_reason := "",
        log_ingestion_disabled := false, tick_interval_override := none }).safe_mode = true := by
  refine ⟨rfl, ?_⟩
  exact safe_mode_never_cleared_by_core (CoreStep.watchdog false "" (3/2)) _ rfl

/-! ### SessionStore (src/vyxen_core/conversation.py)

Python dicts become association lists with dict-style update (insert shadows
by erasing the key first); session objects shared between the two dicts are
modelled by value, with every in-place mutation written back to both maps
exactly where the aliasing makes the Python code observe it. -/

structure Session where
  user_id : Int
  channel_id : Int
  guild_id : String
  session_start : ℚ
  last_interaction : ℚ
  active : Bool
  expires_at : ℚ
  message_count : Nat
deriving Repr, DecidableEq

/-- `ConversationSession.expired(now)`: `now >= self.expires_at`. -/
def Session.expired (s : Session) (now : ℚ) : Bool :=
  decide (s.expires_at ≤ now)

structure SessionStore where
  ttl_seconds : ℚ
  sessions : List ((Int × String × Int) × Session)
  active_by_channel : List ((String × Int) × Session)
deriving Repr, DecidableEq

/-- `dict.pop(k, None)`. -/
def eraseKV {κ α : Type} [DecidableEq κ] (l : List (κ × α)) (k : κ) : List (κ × α) :=
  l.filter (fun kv => ! decide (kv.1 = k))

/-- `dict[k] = v`. -/
def insertKV {κ α : Type} [DecidableEq κ] (l : List (κ × α)) (k : κ) (v : α) :
    List (κ × α) :=
  (k, v) :: eraseKV l k

/-- Stimulus fields consulted by `route_stimulus` (`content` is already the
`(ctx.get("content") or "")` string; `strip().lower()` is applied inside). -/
structure RoutedStimulus where
  type : String
  author_id : Option Int
  server_id : Option String
  channel_id : Option Int
  mentions_bot : Bool
  content : String
deriving Repr, DecidableEq

/-- `context.get("server_id") or "global"` (empty strings are falsy). -/
def guildOf (stim : RoutedStimulus) : String :=
  match stim.server_id with
  | none => "global"
  | some s => if s = "" then "global" else s

/-- `SessionStore.expire_stale()`: pop every expired session from `sessions`
(leaving `active_by_channel` untouched) and report them with reason
"timeout". -/
def expireStale (st : SessionStore) (now : ℚ) : SessionStore × List (Session × String) :=
  ({ st with sessions := st.sessions.filter (fun kv => ! kv.2.expired now) },
   (st.sessions.filter (fun kv => kv.2.expired now)).map (fun kv => (kv.2, "timeout")))

/-- The `_looks_directed` closure: address-pattern heuristics, then substring,
then the continuing-session check (`sessionOk` carries
`session and not session.expired(now) and session.user_id == author_id`). -/
def looksDirectedText (text : String) (sessionOk : Bool) : Bool :=
  if text = "" then false
  else if (["vyxen", "vyxen,", "vyxen:", "vox", "vox,"].any
      (fun pre => pre.isPrefixOf text)) then true
  else if decide ("vyxen".toList <:+: text.toList) then true
  else sessionOk

/-- New session created on a directed stimulus without a live prior session. -/
def mkSession (author channel : Int) (guild : String) (now ttl : ℚ) : Session :=
  { user_id := author, channel_id := channel, guild_id := guild,
    session_start := now, last_interaction := now, active := true,
    expires_at := now + ttl, message_count := 1 }

/-- Sliding-TTL refresh of a live session. -/
def refreshSession (s : Session) (now ttl : ℚ) : Session :=
  { s with last_interaction := now, expires_at := now + ttl,
           message_count := s.message_count + 1 }

structure RouteResult where
  routing : String
  session : Option Session
  ended : List (Session × String)
deriving Repr, DecidableEq

/-- Lines 77–80: clear an expired active session (popping both dict
references); returns the surviving active session. -/
def clearExpiredActive (st : SessionStore) (guild : String) (channel : Int)
    (now : ℚ) : SessionStore × Option Session :=
  match lookupKV st.active_by_channel (guild, channel) with
  | some a =>
    if a.expired now then
      ({ st with sessions := eraseKV st.sessions (a.user_id, guild, channel),
                 active_by_channel := eraseKV st.active_by_channel (guild, channel) },
       none)
    else (st, some a)
  | none => (st, none)

/-- Lines 99–103: a directed stimulus from a different user ends the active
session with reason "superseded" (popping both dict references). -/
def supersedeActive (st : SessionStore) (active1 : Option Session)
    (author channel : Int) (guild : String) (ended : List (Session × String)) :
    SessionStore × List (Session × String) :=
  match active1 with
  | some a =>
    if decide (a.user_id ≠ author) then
      ({ st with sessions := eraseKV st.sessions (a.user_id, guild, channel),
                 active_by_channel := eraseKV st.active_by_channel (guild, channel) },
       ended ++ [(a, "superseded")])
    else (st, ended)
  | none => (st, ended)

/-- Lines 104–118: refresh the author's live session (sliding TTL) or create
a new one. -/
def refreshOrCreate (sess0 : Option Session) (author channel : Int)
    (guild : String) (now ttl : ℚ) : Session :=
  match sess0 with
  | some s =>
    if ! s.expired now then refreshSession s now ttl
    else mkSession author channel guild now ttl
  | none => mkSession author channel guild now ttl

/-- Lines 118–119: store the session under its key and make it the channel's
active session. -/
def installSession (st : SessionStore) (author channel : Int) (guild : String)
    (snew : Session) : SessionStore :=
  { st with sessions := insertKV st.sessions (author, guild, channel) snew,
            active_by_channel := insertKV st.active_by_channel (guild, channel) snew }

/-- `SessionStore.route_stimulus(stimulus)`. -/
def routeStimulus (st0 : SessionStore) (stim : RoutedStimulus) (now : ℚ) :
    RouteResult × SessionStore :=
  let p := expireStale st0 now
  let st := p.1
  let ended := p.2
  if ¬ (stim.type = "discord_message" ∨ stim.type = "attachment") then
    (⟨"system", none, ended⟩, st)
  else
    match stim.author_id, stim.channel_id with
    | none, _ => (⟨"ambient", none, ended⟩, st)
    | some _, none => (⟨"ambient", none, ended⟩, st)
    | some author, some channel =>
      let guild := guildOf stim
      let content := stim.content.trim.toLower
      let p1 := clearExpiredActive st guild channel now
      let st1 := p1.1
      let active1 := p1.2
      let sess0 := lookupKV st1.sessions (author, guild, channel)
      let sessionOk := match sess0 with
        | some s => ! s.expired now && decide (s.user_id = author)
        | none => false
      let detected := stim.mentions_bot || looksDirectedText content sessionOk
      if detected then
        let p2 := supersedeActive st1 active1 author channel guild ended
        let snew := refreshOrCreate sess0 author channel guild now st0.ttl_seconds
        (⟨"directed", some snew, p2.2⟩, installSession p2.1 author channel guild snew)
      else
        match active1 with
        | some a =>
          if decide (a.user_id = author) then
            let a' := refreshSession a now st0.ttl_seconds
            -- the in-place mutation is visible through both dict references
            let st2 := { st1 with
              active_by_channel := insertKV st1.active_by_channel (guild, channel) a',
              sessions := if lookupKV st1.sessions (author, guild, channel) = some a
                          then insertKV st1.sessions (author, guild, channel) a'
                          else st1.sessions }
            (⟨"directed", some a', ended⟩, st2)
          else (⟨"ambient", none, ended⟩, st1)
        | none => (⟨"ambient", none, ended⟩, st1)

/-- States reachable from an empty store through the routing API (the
sequences claim C8 quantifies over). -/
inductive Reached : SessionStore → Prop where
  | init (ttl : ℚ) : Reached ⟨ttl, [], []⟩
  | route (st : SessionStore) (stim : RoutedStimulus) (now : ℚ) :
      Reached st → Reached (routeStimulus st stim now).2
  | sweep (st : SessionStore) (now : ℚ) :
      Reached st → Reached (expireStale st now).1

/-! #### Dictionary lemmas -/

theorem lookupKV_mem {κ α : Type} [DecidableEq κ] :
    ∀ {l : List (κ × α)} {k : κ} {v : α}, lookupKV l k = some v → (k, v) ∈ l := by
  intro l
  induction l with
  | nil => intro k v h; cases h
  | cons kv rest ih =>
    intro k v h
    obtain ⟨k0, v0⟩ := kv
    simp only [lookupKV] at h
    by_cases h0 : k0 = k
    · rw [if_pos h0] at h
      cases h
      subst h0
      exact List.mem_cons_self _ _
    · rw [if_neg h0] at h
      exact List.mem_cons_of_mem _ (ih h)

theorem lookupKV_eraseKV {κ α : Type} [DecidableEq κ] :
    ∀ (l : List (κ × α)) (k k' : κ),
      lookupKV (eraseKV l k) k' = if k' = k then none else lookupKV l k' := by
  intro l k
  induction l with
  | nil =>
    intro k'
    simp only [eraseKV, List.filter_nil, lookupKV]
    split <;> rfl
  | cons kv rest ih =>
    intro k'
    obtain ⟨k0, v0⟩ := kv
    by_cases hk : k0 = k
    · have h1 : eraseKV ((k0, v0) :: rest) k = eraseKV rest k := by
        simp [eraseKV, List.filter_cons, hk]
      rw [h1, ih k']
      by_cases hk' : k' = k
      · simp [hk']
      · rw [if_neg hk', if_neg hk']
        have hne : k0 ≠ k' := fun h => hk' (by rw [← h, hk])
        simp only [lookupKV]
        rw [if_neg hne]
    · have h1 : eraseKV ((k0, v0) :: rest) k = (k0, v0) :: eraseKV rest k := by
        simp [eraseKV, List.filter_cons, hk]
      rw [h1]
      simp only [lookupKV]
      by_cases h0 : k0 = k'
      · have hk' : ¬ k' = k := fun h => hk (by rw [h0, h])
        rw [if_pos h0, if_neg hk', if_pos h0]
      · rw [if_neg h0, ih k']
        by_cases hk' : k' = k
        · simp [hk']
        · rw [if_neg hk', if_neg hk', if_neg h0]

theorem lookupKV_insertKV {κ α : Type} [DecidableEq κ]
    (l : List (κ × α)) (k : κ) (v : α) (k' : κ) :
    lookupKV (insertKV l k v) k' = if k' = k then some v else lookupKV l k' := by
  simp only [insertKV, lookupKV]
  by_cases h : k = k'
  · rw [if_pos h, if_pos (by rw [h])]
  · have hk' : ¬ k' = k := fun hh => h hh.symm
    rw [if_neg h, lookupKV_eraseKV, if_neg hk', if_neg hk']

/-- No two entries share a key. -/
def NodupKeys {κ α : Type} (l : List (κ × α)) : Prop :=
  l.Pairwise (fun a b => a.1 ≠ b.1)

theorem nodupKeys_filter {κ α : Type} (p : κ × α → Bool) {l : List (κ × α)}
    (h : NodupKeys l) : NodupKeys (l.filter p) :=
  List.Pairwise.filter p h

theorem nodupKeys_eraseKV {κ α : Type} [DecidableEq κ] {l : List (κ × α)} (k : κ)
    (h : NodupKeys l) : NodupKeys (eraseKV l k) :=
  nodupKeys_filter _ h

theorem nodupKeys_insertKV {κ α : Type} [DecidableEq κ] {l : List (κ × α)}
    (k : κ) (v : α) (h : NodupKeys l) : NodupKeys (insertKV l k v) := by
  refine List.Pairwise.cons ?_ (nodupKeys_eraseKV k h)
  intro b hb
  have := List.of_mem_filter hb
  simp only [Bool.not_eq_true'] at this
  intro he
  rw [← he] at this
  simp at this

theorem lookupKV_filter_some {κ α : Type} [DecidableEq κ] {p : κ × α → Bool} :
    ∀ {l : List (κ × α)} {k : κ} {v : α}, NodupKeys l →
      lookupKV (l.filter p) k = some v → lookupKV l k = some v ∧ p (k, v) = true := by
  intro l
  induction l with
  | nil => intro k v _ h; cases h
  | cons kv rest ih =>
    intro k v hnd h
    obtain ⟨k0, v0⟩ := kv
    have hnd' : NodupKeys rest := hnd.of_cons
    by_cases hp : p (k0, v0) = true
    · rw [List.filter_cons_of_pos hp] at h
      simp only [lookupKV] at h ⊢
      by_cases h0 : k0 = k
      · rw [if_pos h0] at h ⊢
        cases h
        exact ⟨rfl, by rwa [← h0]⟩
      · rw [if_neg h0] at h ⊢
        exact ih hnd' h
    · rw [List.filter_cons_of_neg (by simpa using hp)] at h
      obtain ⟨h1, h2⟩ := ih hnd' h
      have hk0 : k0 ≠ k := by
        intro he
        subst he
        have hmem := lookupKV_mem h1
        have := (List.pairwise_cons.mp hnd).1 (k0, v) hmem
        exact this rfl
      simp only [lookupKV]
      rw [if_neg hk0]
      exact ⟨h1, h2⟩

/-! #### The session-store invariant -/

/-- Every entry of `sessions` is keyed by its own identifiers and is the one
session the channel's `active_by_channel` slot points to. -/
def SessInv (st : SessionStore) : Prop :=
  ∀ (u : Int) (g : String) (c : Int) (s : Session),
    lookupKV st.sessions (u, g, c) = some s →
    s.user_id = u ∧ s.channel_id = c ∧ s.guild_id = g ∧
    lookupKV st.active_by_channel (g, c) = some s

def StoreWF (st : SessionStore) : Prop :=
  NodupKeys st.sessions ∧ NodupKeys st.active_by_channel ∧ SessInv st

theorem expireStale_wf (st : SessionStore) (now : ℚ) (h : StoreWF st) :
    StoreWF (expireStale st now).1 := by
  obtain ⟨h1, h2, h3⟩ := h
  refine ⟨nodupKeys_filter _ h1, h2, ?_⟩
  intro u g c s hl
  exact h3 u g c s (lookupKV_filter_some h1 hl).1

theorem wf_erase_pair (st : SessionStore) (a : Session) (guild : String) (channel : Int)
    (h : StoreWF st) (ha : lookupKV st.active_by_channel (guild, channel) = some a) :
    StoreWF { st with sessions := eraseKV st.sessions (a.user_id, guild, channel),
                      active_by_channel := eraseKV st.active_by_channel (guild, channel) } := by
  obtain ⟨h1, h2, h3⟩ := h
  refine ⟨nodupKeys_eraseKV _ h1, nodupKeys_eraseKV _ h2, ?_⟩
  intro u g c s hl
  dsimp only at hl ⊢
  rw [lookupKV_eraseKV] at hl
  by_cases hk : (u, g, c) = (a.user_id, guild, channel)
  · rw [if_pos hk] at hl; cases hl
  · rw [if_neg hk] at hl
    obtain ⟨hu, hc, hg, hact⟩ := h3 u g c s hl
    refine ⟨hu, hc, hg, ?_⟩
    rw [lookupKV_eraseKV]
    by_cases hck : (g, c) = (guild, channel)
    · exfalso
      rw [hck] at hact
      have hsa : s = a := by
        rw [hact] at ha
        exact Option.some.inj ha
      obtain ⟨hgg, hcc⟩ := Prod.mk.injEq .. ▸ hck
      exact hk (by rw [← hu, hsa, hgg, hcc])
    · rw [if_neg hck]
      exact hact

theorem wf_insert_pair (st : SessionStore) (author channel : Int) (guild : String)
    (snew : Session) (h : StoreWF st)
    (hu : snew.user_id = author) (hc : snew.channel_id = channel)
    (hg : snew.guild_id = guild)
    (hact : ∀ a, lookupKV st.active_by_channel (guild, channel) = some a →
      a.user_id = author) :
    StoreWF { st with sessions := insertKV st.sessions (author, guild, channel) snew,
                      active_by_channel :=
                        insertKV st.active_by_channel (guild, channel) snew } := by
  obtain ⟨h1, h2, h3⟩ := h
  refine ⟨nodupKeys_insertKV _ _ h1, nodupKeys_insertKV _ _ h2, ?_⟩
  intro u g c s hl
  dsimp only at hl ⊢
  rw [lookupKV_insertKV] at hl
  by_cases hk : (u, g, c) = (author, guild, channel)
  · rw [if_pos hk] at hl
    have hs : s = snew := (Option.some.inj hl).symm
    obtain ⟨huu, hgg, hcc⟩ : u = author ∧ g = guild ∧ c = channel := by
      simpa [Prod.ext_iff] using hk
    subst hs
    refine ⟨by rw [hu, huu], by rw [hc, hcc], by rw [hg, hgg], ?_⟩
    rw [lookupKV_insertKV, if_pos (by rw [hgg, hcc])]
  · rw [if_neg hk] at hl
    obtain ⟨hu', hc', hg', hact'⟩ := h3 u g c s hl
    refine ⟨hu', hc', hg', ?_⟩
    rw [lookupKV_insertKV]
    by_cases hck : (g, c) = (guild, channel)
    · exfalso
      rw [hck] at hact'
      have husr := hact s hact'
      obtain ⟨hgg, hcc⟩ : g = guild ∧ c = channel := by
        simpa [Prod.ext_iff] using hck
      exact hk (by rw [← hu', husr, hgg, hcc])
    · rw [if_neg hck]
      exact hact'

theorem wf_insert_active_refresh (st : SessionStore) (a : Session)
    (author channel : Int) (guild : String) (a' : Session) (h : StoreWF st)
    (ha : lookupKV st.active_by_channel (guild, channel) = some a)
    (hauth : a.user_id = author)
    (hnot : lookupKV st.sessions (author, guild, channel) ≠ some a) :
    StoreWF { st with active_by_channel :=
                        insertKV st.active_by_channel (guild, channel) a' } := by
  obtain ⟨h1, h2, h3⟩ := h
  refine ⟨h1, nodupKeys_insertKV _ _ h2, ?_⟩
  intro u g c s hl
  dsimp only at hl ⊢
  obtain ⟨hu', hc', hg', hact'⟩ := h3 u g c s hl
  refine ⟨hu', hc', hg', ?_⟩
  rw [lookupKV_insertKV]
  by_cases hck : (g, c) = (guild, channel)
  · exfalso
    rw [hck] at hact'
    have hsa : s = a := by
      rw [hact'] at ha
      exact Option.some.inj ha
    obtain ⟨hgg, hcc⟩ : g = guild ∧ c = channel := by
      simpa [Prod.ext_iff] using hck
    apply hnot
    have huu : u = author := by rw [← hu', hsa, hauth]
    rw [← huu, ← hgg, ← hcc, hl, hsa]
  · rw [if_neg hck]
    exact hact'

/-- Fields preserved by a sliding-TTL refresh. -/
theorem refreshSession_fields (s : Session) (now ttl : ℚ) :
    (refreshSession s now ttl).user_id = s.user_id ∧
    (refreshSession s now ttl).channel_id = s.channel_id ∧
    (refreshSession s now ttl).guild_id = s.guild_id :=
  ⟨rfl, rfl, rfl⟩

/-- Behaviour of the expired-active-session clearing step. -/
theorem clearExpiredActive_spec (st : SessionStore) (guild : String) (channel : Int)
    (now : ℚ) (h : StoreWF st) :
    StoreWF (clearExpiredActive st guild channel now).1 ∧
    (((clearExpiredActive st guild channel now).2 = none ∧
      lookupKV (clearExpiredActive st guild channel now).1.active_by_channel
        (guild, channel) = none) ∨
     (∃ a, (clearExpiredActive st guild channel now).2 = some a ∧
       (clearExpiredActive st guild channel now).1 = st ∧
       lookupKV st.active_by_channel (guild, channel) = some a ∧
       a.expired now = false)) := by
  unfold clearExpiredActive
  cases hact : lookupKV st.active_by_channel (guild, channel) with
  | none => exact ⟨h, Or.inl ⟨rfl, hact⟩⟩
  | some a =>
    dsimp only
    by_cases hexp : a.expired now = true
    · rw [if_pos hexp]
      refine ⟨wf_erase_pair st a guild channel h hact, Or.inl ⟨rfl, ?_⟩⟩
      dsimp only
      rw [lookupKV_eraseKV, if_pos rfl]
    · rw [if_neg hexp]
      exact ⟨h, Or.inr ⟨a, rfl, rfl, rfl, by simpa using hexp⟩⟩

/-- Behaviour of the supersede step: the state stays well formed, any session
left active for the channel belongs to the author, and the ended list gains
at most the one superseded pair. -/
theorem supersedeActive_spec (st1 : SessionStore) (active1 : Option Session)
    (author channel : Int) (guild : String) (ended : List (Session × String))
    (h : StoreWF st1)
    (hrel : (active1 = none ∧
             lookupKV st1.active_by_channel (guild, channel) = none) ∨
            (∃ a, active1 = some a ∧
             lookupKV st1.active_by_channel (guild, channel) = some a)) :
    StoreWF (supersedeActive st1 active1 author channel guild ended).1 ∧
    (∀ a', lookupKV (supersedeActive st1 active1 author channel guild
        ended).1.active_by_channel (guild, channel) = some a' →
      a'.user_id = author) ∧
    ((supersedeActive st1 active1 author channel guild ended).2 = ended ∨
      (∃ a, active1 = some a ∧ a.user_id ≠ author ∧
        (supersedeActive st1 active1 author channel guild ended).2 =
          ended ++ [(a, "superseded")])) := by
  unfold supersedeActive
  rcases hrel with ⟨hn, hlook⟩ | ⟨a, ha1, hlook⟩
  · subst hn
    refine ⟨h, ?_, Or.inl rfl⟩
    intro a' ha'
    rw [hlook] at ha'
    cases ha'
  · subst ha1
    dsimp only
    by_cases hd : a.user_id = author
    · rw [if_neg (by simp [hd])]
      refine ⟨h, ?_, Or.inl rfl⟩
      intro a' ha'
      rw [hlook] at ha'
      rw [← Option.some.inj ha', hd]
    · rw [if_pos (by simp [hd])]
      refine ⟨wf_erase_pair st1 a guild channel h hlook, ?_, Or.inr ⟨a, rfl, hd, rfl⟩⟩
      intro a' ha'
      dsimp only at ha'
      rw [lookupKV_eraseKV, if_pos rfl] at ha'
      cases ha'

/-- The refreshed-or-new session carries the author's identifiers. -/
theorem refreshOrCreate_fields (st1 : SessionStore) (author channel : Int)
    (guild : String) (now ttl : ℚ) (h : StoreWF st1) :
    (refreshOrCreate (lookupKV st1.sessions (author, guild, channel))
      author channel guild now ttl).user_id = author ∧
    (refreshOrCreate (lookupKV st1.sessions (author, guild, channel))
      author channel guild now ttl).channel_id = channel ∧
    (refreshOrCreate (lookupKV st1.sessions (author, guild, channel))
      author channel guild now ttl).guild_id = guild := by
  unfold refreshOrCreate
  cases hs : lookupKV st1.sessions (author, guild, channel) with
  | none => exact ⟨rfl, rfl, rfl⟩
  | some s =>
    dsimp only
    obtain ⟨hu, hc, hg, _⟩ := h.2.2 _ _ _ _ hs
    by_cases hexp : s.expired now = true
    · rw [if_neg (by simp [hexp])]
      exact ⟨rfl, rfl, rfl⟩
    · rw [if_pos (by simp [Bool.not_eq_true] at hexp ⊢; exact hexp)]
      exact ⟨hu, hc, hg⟩

theorem installSession_wf (st : SessionStore) (author channel : Int)
    (guild : String) (snew : Session) (h : StoreWF st)
    (hu : snew.user_id = author) (hc : snew.channel_id = channel)
    (hg : snew.guild_id = guild)
    (hact : ∀ a, lookupKV st.active_by_channel (guild, channel) = some a →
      a.user_id = author) :
    StoreWF (installSession st author channel guild snew) :=
  wf_insert_pair st author channel guild snew h hu hc hg hact

/-- One routing call preserves the store invariant. -/
theorem routeStimulus_wf (st : SessionStore) (stim : RoutedStimulus) (now : ℚ)
    (h : StoreWF st) : StoreWF (routeStimulus st stim now).2 := by
  have hE := expireStale_wf st now h
  unfold routeStimulus
  dsimp only
  split
  · exact hE
  · split
    · exact hE
    · exact hE
    · rename_i author channel hau hch
      obtain ⟨hc1, hc2⟩ :=
        clearExpiredActive_spec (expireStale st now).1 (guildOf stim) channel now hE
      split
      · -- detected: supersede (if needed) then install the author's session
        have hrel : ((clearExpiredActive (expireStale st now).1 (guildOf stim)
              channel now).2 = none ∧
            lookupKV (clearExpiredActive (expireStale st now).1 (guildOf stim)
              channel now).1.active_by_channel (guildOf stim, channel) = none) ∨
            (∃ a, (clearExpiredActive (expireStale st now).1 (guildOf stim)
              channel now).2 = some a ∧
            lookupKV (clearExpiredActive (expireStale st now).1 (guildOf stim)
              channel now).1.active_by_channel (guildOf stim, channel) = some a) := by
          rcases hc2 with ⟨hn, hl⟩ | ⟨a, ha, hst, hl, _⟩
          · exact Or.inl ⟨hn, hl⟩
          · exact Or.inr ⟨a, ha, by rw [hst]; exact hl⟩
        obtain ⟨hs1, hs2, _⟩ :=
          supersedeActive_spec _ _ author channel (guildOf stim) _ hc1 hrel
        obtain ⟨fu, fc, fg⟩ :=
          refreshOrCreate_fields _ author channel (guildOf stim) now st.ttl_seconds hc1
        exact installSession_wf _ author channel (guildOf stim) _ hs1 fu fc fg hs2
      · -- not detected
        split
        case _ a ha1 =>
          -- the active session is live; only a same-user refresh can happen
          have hlook : lookupKV (clearExpiredActive (expireStale st now).1
              (guildOf stim) channel now).1.active_by_channel
              (guildOf stim, channel) = some a := by
            rcases hc2 with ⟨hn, _⟩ | ⟨a', ha', hst, hl, _⟩
            · rw [hn] at ha1; cases ha1
            · rw [ha'] at ha1
              rw [hst]
              rw [← Option.some.inj ha1]
              exact hl
          split
          · rename_i hsame
            have hauth : a.user_id = author := by simpa using hsame
            split
            case _ hcond =>
              obtain ⟨hu, hc, hg, _⟩ := hc1.2.2 _ _ _ _ hcond
              exact wf_insert_pair _ author channel (guildOf stim) _ hc1
                (by rw [(refreshSession_fields a now st.ttl_seconds).1, hu])
                (by rw [(refreshSession_fields a now st.ttl_seconds).2.1, hc])
                (by rw [(refreshSession_fields a now st.ttl_seconds).2.2, hg])
                (by
                  intro a' ha'
                  rw [hlook] at ha'
                  rw [← Option.some.inj ha', hauth])
            case _ hcond =>
              exact wf_insert_active_refresh _ a author channel (guildOf stim) _
                hc1 hlook hauth hcond
          · exact hc1
        case _ ha1 => exact hc1

/-- All states reachable through the routing API are well formed. -/
theorem reached_wf : ∀ st, Reached st → StoreWF st := by
  intro st h
  induction h with
  | init ttl =>
    refine ⟨List.Pairwise.nil, List.Pairwise.nil, ?_⟩
    intro u g c s hl
    cases hl
  | route st stim now _ ih => exact routeStimulus_wf st stim now ih
  | sweep st now _ ih => exact expireStale_wf st now ih

/-- `expire_stale` only ever emits "timeout" events. -/
theorem expireStale_no_superseded (st : SessionStore) (now : ℚ) :
    (expireStale st now).2.filter (fun e => decide (e.2 = "superseded")) = [] := by
  rw [List.filter_eq_nil]
  intro e he
  unfold expireStale at he
  dsimp only at he
  obtain ⟨kv, _, rfl⟩ := List.mem_map.mp he
  simp

/-! ### Claim C8 -/

/-- C8.  Through any sequence of routed stimuli from an empty store: (i) two
session entries for the same (guild, channel) always coincide — in
particular at most one non-expired session is active per channel; (ii) when a
directed stimulus (here a bot mention) arrives from a user different from the
live active session's user, the prior session is ended with exactly one
`superseded` event and the new user's session becomes the channel's single
active session. -/
theorem session_channel_exclusive_supersede :
    (∀ st, Reached st → ∀ (u1 u2 : Int) (g : String) (c : Int)
        (s1 s2 : Session) (now : ℚ),
      lookupKV st.sessions (u1, g, c) = some s1 →
      lookupKV st.sessions (u2, g, c) = some s2 →
      s1.expired now = false → s2.expired now = false →
      u1 = u2 ∧ s1 = s2) ∧
    (∀ (st : SessionStore) (stim : RoutedStimulus) (now : ℚ)
        (author channel : Int) (a : Session),
      Reached st →
      stim.type = "discord_message" →
      stim.author_id = some author →
      stim.channel_id = some channel →
      stim.mentions_bot = true →
      lookupKV st.active_by_channel (guildOf stim, channel) = some a →
      a.expired now = false →
      a.user_id ≠ author →
      (routeStimulus st stim now).1.routing = "directed" ∧
      ((routeStimulus st stim now).1.ended.filter
        (fun e => decide (e.2 = "superseded"))) = [(a, "superseded")] ∧
      (∃ snew, (routeStimulus st stim now).1.session = some snew ∧
        snew.user_id = author ∧
        lookupKV (routeStimulus st stim now).2.active_by_channel
          (guildOf stim, channel) = some snew)) := by
  constructor
  · intro st hr u1 u2 g c s1 s2 now h1 h2 _ _
    obtain ⟨_, _, hinv⟩ := reached_wf st hr
    obtain ⟨hu1, _, _, ha1⟩ := hinv u1 g c s1 h1
    obtain ⟨hu2, _, _, ha2⟩ := hinv u2 g c s2 h2
    have hs : s1 = s2 := by
      rw [ha1] at ha2
      exact Option.some.inj ha2
    exact ⟨by rw [← hu1, hs, hu2], hs⟩
  · intro st stim now author channel a hr htype hauthor hchan hmention ha hlive hdiff
    have hE := expireStale_wf st now (reached_wf st hr)
    -- the expired-clearing step keeps the live active session
    have hclear : clearExpiredActive (expireStale st now).1 (guildOf stim) channel now =
        ((expireStale st now).1, some a) := by
      unfold clearExpiredActive
      rw [show lookupKV (expireStale st now).1.active_by_channel
        (guildOf stim, channel) = some a from ha]
      dsimp only
      rw [if_neg (by simp [hlive])]
    -- the supersede step pops the prior session and reports it once
    have hsup : supersedeActive (expireStale st now).1 (some a) author channel
        (guildOf stim) (expireStale st now).2 =
        ({ (expireStale st now).1 with
            sessions := eraseKV (expireStale st now).1.sessions
              (a.user_id, guildOf stim, channel),
            active_by_channel := eraseKV (expireStale st now).1.active_by_channel
              (guildOf stim, channel) },
         (expireStale st now).2 ++ [(a, "superseded")]) := by
      unfold supersedeActive
      dsimp only
      rw [if_pos (by simp [hdiff])]
    have hroute : routeStimulus st stim now =
        (⟨"directed",
          some (refreshOrCreate (lookupKV (expireStale st now).1.sessions
            (author, guildOf stim, channel)) author channel (guildOf stim) now
            st.ttl_seconds),
          (expireStale st now).2 ++ [(a, "superseded")]⟩,
         installSession
           { (expireStale st now).1 with
              sessions := eraseKV (expireStale st now).1.sessions
                (a.user_id, guildOf stim, channel),
              active_by_channel := eraseKV (expireStale st now).1.active_by_channel
                (guildOf stim, channel) }
           author channel (guildOf stim)
           (refreshOrCreate (lookupKV (expireStale st now).1.sessions
             (author, guildOf stim, channel)) author channel (guildOf stim) now
             st.ttl_seconds)) := by
      unfold routeStimulus
      dsimp only
      rw [htype]
      rw [if_neg (by simp)]
      rw [hauthor, hchan]
      dsimp only
      rw [hclear]
      dsimp only
      rw [hmention]
      simp only [Bool.true_or, if_true]
      rw [hsup]
    obtain ⟨fu, _, _⟩ :=
      refreshOrCreate_fields (expireStale st now).1 author channel (guildOf stim)
        now st.ttl_seconds hE
    rw [hroute]
    refine ⟨rfl, ?_, ?_⟩
    · dsimp only
      rw [List.filter_append, expireStale_no_superseded]
      simp
    · refine ⟨_, rfl, fu, ?_⟩
      unfold installSession
      dsimp only
      rw [lookupKV_insertKV, if_pos rfl]

/-- Concrete scenario for the witness: user 1 opens a session, then user 2
mentions the bot in the same channel. -/
def stimUser1 : RoutedStimulus :=
  ⟨"discord_message", some 1, some "g", some 7, true, ""⟩

def stimUser2 : RoutedStimulus :=
  ⟨"discord_message", some 2, some "g", some 7, true, ""⟩

def sessStoreEmpty : SessionStore := ⟨300, [], []⟩

def sessStoreOne : SessionStore := (routeStimulus sessStoreEmpty stimUser1 1000).2

def sessUser1 : Session := mkSession 1 7 "g" 1000 300

/-- Witness: the supersede theorem applied to the two-user scenario. -/
theorem session_channel_exclusive_supersede_inst :
    Reached sessStoreOne ∧
    lookupKV sessStoreOne.active_by_channel (guildOf stimUser2, 7) = some sessUser1 ∧
    sessUser1.expired 1001 = false ∧
    ((routeStimulus sessStoreOne stimUser2 1001).1.ended.filter
      (fun e => decide (e.2 = "superseded"))) = [(sessUser1, "superseded")] ∧
    (∃ snew, (routeStimulus sessStoreOne stimUser2 1001).1.session = some snew ∧
      snew.user_id = 2 ∧
      lookupKV (routeStimulus sessStoreOne stimUser2 1001).2.active_by_channel
        (guildOf stimUser2, 7) = some snew) := by
  have hreach : Reached sessStoreOne :=
    Reached.route sessStoreEmpty stimUser1 1000 (Reached.init 300)
  have hone : sessStoreOne =
      ⟨300, [((1, "g", 7), sessUser1)], [(("g", 7), sessUser1)]⟩ := by
    norm_num +decide [sessStoreOne, routeStimulus, expireStale, sessStoreEmpty,
      stimUser1, clearExpiredActive, lookupKV, supersedeActive, refreshOrCreate,
      installSession, insertKV, eraseKV, guildOf, mkSession, sessUser1]
  have hlook : lookupKV sessStoreOne.active_by_channel (guildOf stimUser2, 7) =
      some sessUser1 := by
    rw [hone]
    norm_num +decide [lookupKV, guildOf, stimUser2]
  have hexp : sessUser1.expired 1001 = false := by
    norm_num [sessUser1, mkSession, Session.expired]
  have h := session_channel_exclusive_supersede.2 sessStoreOne stimUser2 1001 2 7
    sessUser1 hreach rfl rfl rfl rfl hlook hexp (by norm_num [sessUser1, mkSession])
  exact ⟨hreach, hlook, hexp, h.2.1, h.2.2⟩

/-! ### Claim C2 and C10 theorems -/

/-- A breaker with threshold=2, window=10s, cooldown=5s after two failures at
t=1000 (so `tripped_until = 1005`). -/
def breakerScenario : CircuitBreaker :=
  ((CircuitBreaker.mk0 2 10 5).record_failure "first" 1000 1000).record_failure
    "second" 1000 1000

/-- C2 (code bug evidence).  With threshold=2, window=10s, cooldown=5s and two
failures at t=1000, `allow()` is correctly false at t=1000 and true at t=1006,
but — contrary to the claim — the check at t=1006 (after `tripped_until=1005`
has passed) does **not** clear the failure history or the stored reason: the
clearing guard `self.tripped and now >= self.tripped_until` is unsatisfiable
because `tripped` re-reads a clock value that is at least `now`. -/
theorem circuit_breaker_no_clear_after_cooldown :
    (breakerScenario.allow 1000 1000).1 = false ∧
    (breakerScenario.allow 1006 1006).1 = true ∧
    ((breakerScenario.allow 1006 1006).2).failures = [1000, 1000] ∧
    ((breakerScenario.allow 1006 1006).2).reason = "second" := by
  norm_num [breakerScenario, CircuitBreaker.mk0, CircuitBreaker.record_failure,
    CircuitBreaker.allow, CircuitBreaker.prune, CircuitBreaker.tripped]

/-- C10.  Under a monotone clock, `record_success` never removes failure
timestamps still inside the window and never changes `tripped_until`; its
failure list is exactly the expiry-pruned one, and the reason string is
cleared precisely when the pruned window is empty (otherwise kept). -/
theorem record_success_frame (b : CircuitBreaker) (now t2 : ℚ) (h : now ≤ t2) :
    (b.record_success now t2).tripped_until = b.tripped_until ∧
    (b.record_success now t2).failures =
      b.failures.dropWhile (fun f => decide (b.window_seconds < now - f)) ∧
    (∀ f ∈ b.failures, now - f ≤ b.window_seconds →
      f ∈ (b.record_success now t2).failures) ∧
    (b.record_success now t2).reason =
      (if (b.failures.dropWhile (fun f => decide (b.window_seconds < now - f))).isEmpty
       then "" else b.reason) := by
  have hp := CircuitBreaker.prune_eq_dropWhile b now t2 h
  unfold CircuitBreaker.record_success
  rw [hp]
  by_cases he :
      (b.failures.dropWhile (fun f => decide (b.window_seconds < now - f))).isEmpty = true
  · refine ⟨by simp [he], by simp [he], ?_, by simp [he]⟩
    intro f hf hfw
    simp only [he, if_true]
    exact mem_dropWhile_of_pred_false _ _ _ hf (by simpa using not_lt.mpr hfw)
  · rw [Bool.not_eq_true] at he
    refine ⟨by simp [he], by simp [he], ?_, by simp [he]⟩
    intro f hf hfw
    simp only [he, Bool.false_eq_true, if_false]
    exact mem_dropWhile_of_pred_false _ _ _ hf (by simpa using not_lt.mpr hfw)

/-- Witness for `record_success_frame` at a concrete breaker with one
in-window failure and a tripped state. -/
theorem record_success_frame_inst :
    (5 : ℚ) ≤ 5 ∧
    (({ threshold := 3, window_seconds := 10, cooldown_seconds := 7,
        failures := [4], tripped_until := 20, reason := "boom" } :
          CircuitBreaker).record_success 5 5).tripped_until = 20 ∧ True := by
  refine ⟨le_refl 5, ?_, trivial⟩
  have hmain := record_success_frame
    { threshold := 3, window_seconds := 10, cooldown_seconds := 7,
      failures := [4], tripped_until := 20, reason := "boom" } 5 5 (le_refl 5)
  exact hmain.1

end Vox
